import Mathlib

/-!
Shallow embedding of the `organization` app of ColdFront
(`coldfront/core/organization/models.py`) together with proofs about it.

Python strings are modelled as `List Char`, database tables as lists of
row structures, and Django querysets as filters over those lists in row
order.  Methods that traverse parent pointers receive fuel (the
recursion in the source terminates exactly when parent chains are
acyclic); fuel exhaustion is an error result and is proved unreachable
under the well-formedness facts that the database schema enforces
(unique primary keys, the level invariants checked by `clean`).
-/

/-- Character-list view of a string literal (Python strings are modelled
as `List Char`). -/
def chars (s : String) : List Char := s.data

/-- One row of the OrganizationLevel table (Django model
`OrganizationLevel`: `name` unique, `level` unique, `parent` a nullable
self-referential OneToOneField with on_delete=PROTECT). -/
structure OrgLevel where
  id : Nat
  name : List Char
  level : Int
  parent : Option Nat
  export_to_xdmod : Bool
  deriving DecidableEq

/-- One row of the Organization table (Django model `Organization`:
`parent` a nullable self FK with on_delete=PROTECT, `organization_level`
a non-null FK, and code/shortname/longname character fields). -/
structure Org where
  id : Nat
  parent : Option Nat
  organization_level : Option Nat
  code : List Char
  shortname : List Char
  longname : List Char
  is_selectable_for_user : Bool
  is_selectable_for_project : Bool
  deriving DecidableEq

/-- One row of the Directory2Organization table: maps a directory string
(unique) to an Organization. -/
structure Dir2Org where
  organization : Nat
  directory_string : List Char
  deriving DecidableEq

/-- Resolve an OrganizationLevel foreign key (primary-key lookup). -/
def findLevel (levels : List OrgLevel) (i : Nat) : Option OrgLevel :=
  levels.find? fun x => x.id == i

/-- Resolve an Organization foreign key (primary-key lookup). -/
def findOrg (orgs : List Org) (i : Nat) : Option Org :=
  orgs.find? fun x => x.id == i

/-- Decimal digits of a natural number, most significant first (the
digit sequence Python `str` prints). -/
def natDigits (n : Nat) : List Nat :=
  if _h : n < 10 then [n]
  else natDigits (n / 10) ++ [n % 10]
  decreasing_by exact Nat.div_lt_self (by omega) (by omega)

/-- Big-endian evaluation of a digit list, the left inverse of
`natDigits`. -/
def valOfDigits (l : List Nat) : Nat := l.foldl (fun a d => 10 * a + d) 0

theorem valOfDigits_append_one (l : List Nat) (d : Nat) :
    valOfDigits (l ++ [d]) = 10 * valOfDigits l + d := by
  unfold valOfDigits
  rw [List.foldl_append]
  rfl

theorem valOfDigits_natDigits (n : Nat) : valOfDigits (natDigits n) = n := by
  induction n using Nat.strong_induction_on with
  | _ n ih =>
    rw [natDigits]
    split
    · simp [valOfDigits]
    · rename_i h
      rw [valOfDigits_append_one, ih (n / 10) (Nat.div_lt_self (by omega) (by omega))]
      omega

theorem natDigits_inj {a b : Nat} (h : natDigits a = natDigits b) : a = b := by
  have ha := valOfDigits_natDigits a
  have hb := valOfDigits_natDigits b
  rw [h, hb] at ha
  exact ha.symm

theorem natDigits_lt_ten (n : Nat) : ∀ d ∈ natDigits n, d < 10 := by
  induction n using Nat.strong_induction_on with
  | _ n ih =>
    rw [natDigits]
    split
    · intro d hd
      rename_i h
      rw [List.mem_singleton] at hd
      omega
    · intro d hd
      rw [List.mem_append] at hd
      rcases hd with hd | hd
      · exact ih (n / 10) (Nat.div_lt_self (by omega) (by omega)) d hd
      · rw [List.mem_singleton] at hd
        subst hd
        exact Nat.mod_lt _ (by omega)

/-- The character for a decimal digit value. -/
def digitChar (d : Nat) : Char := Char.ofNat (48 + d)

/-- Decimal numeral of a natural number, as Python `str` renders it. -/
def natToStr (n : Nat) : List Char := (natDigits n).map digitChar

theorem digitChar_inj : ∀ d < 10, ∀ e < 10, digitChar d = digitChar e → d = e := by
  decide

theorem map_digitChar_inj :
    ∀ (l1 l2 : List Nat), (∀ d ∈ l1, d < 10) → (∀ d ∈ l2, d < 10) →
      l1.map digitChar = l2.map digitChar → l1 = l2 := by
  intro l1
  induction l1 with
  | nil =>
    intro l2 _ _ h
    cases l2 with
    | nil => rfl
    | cons b t => simp at h
  | cons a t ih =>
    intro l2 h1 h2 h
    cases l2 with
    | nil => simp at h
    | cons b t2 =>
      simp only [List.map_cons, List.cons.injEq] at h
      have hab : a = b :=
        digitChar_inj a (h1 a (by simp)) b (h2 b (by simp)) h.1
      have ht : t = t2 :=
        ih t2 (fun d hd => h1 d (by simp [hd])) (fun d hd => h2 d (by simp [hd])) h.2
      rw [hab, ht]

theorem natToStr_inj {a b : Nat} (h : natToStr a = natToStr b) : a = b := by
  unfold natToStr at h
  exact natDigits_inj
    (map_digitChar_inj _ _ (natDigits_lt_ten a) (natDigits_lt_ten b) h)

/-- The while loop inside `generate_unique_organization_names`: starting
at candidate index `i`, return base + str(i) for the first index whose
candidate does not occur in `used`.  The fuel bounds the search; it is
chosen large enough that it never runs out (`findUniqueLoop_found`). -/
def findUniqueLoop (base : List Char) (used : List (List Char)) :
    Nat → Nat → List Char
  | 0, i => base ++ natToStr i
  | fuel + 1, i =>
    let test := base ++ natToStr i
    if test ∈ used then findUniqueLoop base used fuel (i + 1) else test

/-- Per-field logic of `generate_unique_organization_names`: the base
value itself if unused, otherwise the first base+str(i), i = 1, 2, ...,
not in `used`. -/
def findUniqueName (base : List Char) (used : List (List Char)) : List Char :=
  if base ∈ used then findUniqueLoop base used (used.length + 1) 1 else base

theorem findUniqueLoop_found (base : List Char) (used : List (List Char)) :
    ∀ fuel i k, k < fuel → base ++ natToStr (i + k) ∉ used →
      (∀ j < k, base ++ natToStr (i + j) ∈ used) →
      findUniqueLoop base used fuel i = base ++ natToStr (i + k) := by
  intro fuel
  induction fuel with
  | zero => intro i k hk; omega
  | succ f ih =>
    intro i k hk hfree hmin
    unfold findUniqueLoop
    simp only []
    split
    · rename_i hmem
      cases k with
      | zero => simp at hfree; exact absurd hmem hfree
      | succ k' =>
        have := ih (i + 1) k' (by omega)
          (by have : i + 1 + k' = i + (k' + 1) := by omega
              rw [this]; exact hfree)
          (by intro j hj
              have : i + 1 + j = i + (j + 1) := by omega
              rw [this]; exact hmin (j + 1) (by omega))
        rw [this]
        have : i + 1 + k' = i + (k' + 1) := by omega
        rw [this]
    · rename_i hmem
      cases k with
      | zero => rfl
      | succ k' =>
        exact absurd (by simpa using hmin 0 (by omega)) hmem

theorem candidate_inj (base : List Char) (i : Nat) :
    Function.Injective fun k => base ++ natToStr (i + k) := by
  intro a b h
  simp only [] at h
  have := List.append_cancel_left h
  have := natToStr_inj this
  omega

theorem exists_free_candidate (base : List Char) (used : List (List Char))
    (i : Nat) : ∃ k, k ≤ used.length ∧ base ++ natToStr (i + k) ∉ used := by
  by_contra hcon
  push_neg at hcon
  have hall : ∀ k ≤ used.length, base ++ natToStr (i + k) ∈ used := by
    intro k hk
    by_contra hnot
    exact hnot (hcon k hk)
  set l := (List.range (used.length + 1)).map fun k => base ++ natToStr (i + k)
    with hl
  have hnodup : l.Nodup := by
    exact List.Nodup.map (candidate_inj base i) (List.nodup_range _)
  have hsub : l ⊆ used := by
    intro x hx
    rw [hl, List.mem_map] at hx
    obtain ⟨k, hk, rfl⟩ := hx
    rw [List.mem_range] at hk
    exact hall k (by omega)
  have hsp := List.subperm_of_subset hnodup hsub
  have hlen := hsp.length_le
  rw [hl] at hlen
  simp at hlen

theorem findUniqueName_spec (base : List Char) (used : List (List Char)) :
    (∃ t, findUniqueName base used = base ++ t) ∧
    findUniqueName base used ∉ used ∧
    (base ∉ used → findUniqueName base used = base) ∧
    (base ∈ used → ∃ k, 1 ≤ k ∧ findUniqueName base used = base ++ natToStr k ∧
      base ++ natToStr k ∉ used ∧
      ∀ j, 1 ≤ j → j < k → base ++ natToStr j ∈ used) := by
  unfold findUniqueName
  by_cases hmem : base ∈ used
  · simp only [if_pos hmem]
    obtain ⟨k0, hk0le, hk0free⟩ := exists_free_candidate base used 1
    have hex : ∃ k, base ++ natToStr (1 + k) ∉ used := ⟨k0, hk0free⟩
    set k := Nat.find hex with hk
    have hkfree : base ++ natToStr (1 + k) ∉ used := Nat.find_spec hex
    have hkmin : ∀ j < k, base ++ natToStr (1 + j) ∈ used := by
      intro j hj
      have := Nat.find_min hex hj
      simpa using this
    have hkle : k ≤ used.length := Nat.find_min' hex hk0free |>.trans hk0le
    have hloop := findUniqueLoop_found base used (used.length + 1) 1 k
      (by omega) hkfree hkmin
    refine ⟨⟨natToStr (1 + k), hloop⟩, by rw [hloop]; exact hkfree,
      fun h => absurd hmem h, fun _ => ⟨1 + k, by omega, hloop, hkfree, ?_⟩⟩
    intro j h1 hjk
    have := hkmin (j - 1) (by omega)
    have hje : 1 + (j - 1) = j := by omega
    rwa [hje] at this
  · simp only [if_neg hmem]
    exact ⟨⟨[], by simp⟩, hmem, fun _ => by trivial, fun h => absurd h hmem⟩

/-- The queryset of current children of `parent` (children of the root
when `parent` is none), as used by `generate_unique_organization_names`. -/
def orgChildren (orgs : List Org) (parent : Option Nat) : List Org :=
  match parent with
  | none => orgs.filter fun o => o.parent == none
  | some p => orgs.filter fun o => o.parent == some p

/-- Return value of `generate_unique_organization_names` (the Python
dict with keys code, shortname, longname). -/
structure UniqueNames where
  ucode : List Char
  ushortname : List Char
  ulongname : List Char
  deriving DecidableEq

/-- Source: `Organization.generate_unique_organization_names`.  Finds a
code, shortname and longname starting from the given bases that do not
occur among the corresponding fields of the current children of
`parent`. -/
def generate_unique_organization_names (orgs : List Org)
    (code shortname longname : List Char) (parent : Option Nat) : UniqueNames :=
  let all_children := orgChildren orgs parent
  { ucode := findUniqueName code (all_children.map (·.code)),
    ushortname := findUniqueName shortname (all_children.map (·.shortname)),
    ulongname := findUniqueName longname (all_children.map (·.longname)) }

/-- The property claim C9 asserts of one generated field: the result
begins with the base value, does not occur among the used values, is the
base itself when that is unused, and otherwise carries the smallest
positive integer suffix whose candidate is unused. -/
def uniqueNameSpec (base result : List Char) (used : List (List Char)) : Prop :=
  (∃ t, result = base ++ t) ∧
  result ∉ used ∧
  (base ∉ used → result = base) ∧
  (base ∈ used → ∃ k, 1 ≤ k ∧ result = base ++ natToStr k ∧
    base ++ natToStr k ∉ used ∧
    ∀ j, 1 ≤ j → j < k → base ++ natToStr j ∈ used)

/-- C9: for every base code, shortname and longname and every parent,
`generate_unique_organization_names` returns, in each of the three
components, a value that begins with the corresponding base, does not
occur among the corresponding fields of the current children of the
parent, and is the base itself when unused, otherwise the base with the
smallest positive integer suffix that is unused appended. -/
theorem C9_generate_unique_organization_names (orgs : List Org)
    (code shortname longname : List Char) (parent : Option Nat) :
    uniqueNameSpec code
      (generate_unique_organization_names orgs code shortname longname parent).ucode
      ((orgChildren orgs parent).map (·.code)) ∧
    uniqueNameSpec shortname
      (generate_unique_organization_names orgs code shortname longname parent).ushortname
      ((orgChildren orgs parent).map (·.shortname)) ∧
    uniqueNameSpec longname
      (generate_unique_organization_names orgs code shortname longname parent).ulongname
      ((orgChildren orgs parent).map (·.longname)) := by
  unfold generate_unique_organization_names uniqueNameSpec
  exact ⟨findUniqueName_spec _ _, findUniqueName_spec _ _, findUniqueName_spec _ _⟩

/-- The level value of the OrganizationLevel an Organization row points
to, when it resolves. -/
def olevelOf (levels : List OrgLevel) (o : Org) : Option Int :=
  match o.organization_level with
  | none => none
  | some i =>
    match findLevel levels i with
    | none => none
    | some ol => some ol.level

/-- Strict order on optional levels; false when either side is missing. -/
def optLt : Option Int → Option Int → Bool
  | some a, some b => decide (a < b)
  | _, _ => false

/-- One Organization row has a well-formed parent link: either no
parent, or the parent row exists and sits at a strictly higher
organization level (the invariant `Organization.clean` enforces). -/
def parentOk (levels : List OrgLevel) (orgs : List Org) (o : Org) : Bool :=
  match o.parent with
  | none => true
  | some pid =>
    match findOrg orgs pid with
    | none => false
    | some po => optLt (olevelOf levels o) (olevelOf levels po)

/-- All Organization rows have well-formed parent links, so parent
chains strictly climb the level hierarchy and are acyclic. -/
def orgForestWF (levels : List OrgLevel) (orgs : List Org) : Bool :=
  orgs.all (parentOk levels orgs)

/-- Number of rows at a strictly higher level than `o`; the measure that
bounds the length of the parent chain above `o`. -/
def countAbove (levels : List OrgLevel) (orgs : List Org) (o : Org) : Nat :=
  (orgs.filter fun x => optLt (olevelOf levels o) (olevelOf levels x)).length

/-- Source: `Organization.ancestors` (returns [root, ..., grandparent,
parent]); fuelled, since the Python recursion follows parent pointers. -/
def ancestorsAux (orgs : List Org) : Nat → Org → Option (List Org)
  | 0, _ => none
  | fuel + 1, o =>
    match o.parent with
    | none => some []
    | some pid =>
      match findOrg orgs pid with
      | none => none
      | some po =>
        match ancestorsAux orgs fuel po with
        | none => none
        | some l => some (l ++ [po])

/-- Source: `Organization.ancestors` with fuel adequate for any acyclic
database. -/
def ancestors (orgs : List Org) (o : Org) : Option (List Org) :=
  ancestorsAux orgs orgs.length o

/-- Source: `Organization.fullcode` (own code, or parent fullcode,
hyphen, own code); fuelled like `ancestors`. -/
def fullcodeAux (orgs : List Org) : Nat → Org → Option (List Char)
  | 0, _ => none
  | fuel + 1, o =>
    match o.parent with
    | none => some o.code
    | some pid =>
      match findOrg orgs pid with
      | none => none
      | some po =>
        match fullcodeAux orgs fuel po with
        | none => none
        | some pc => some (pc ++ '-' :: o.code)

/-- Source: `Organization.fullcode` with fuel adequate for any acyclic
database. -/
def fullcode (orgs : List Org) (o : Org) : Option (List Char) :=
  fullcodeAux orgs orgs.length o

theorem findOrg_mem {orgs : List Org} {pid : Nat} {po : Org}
    (h : findOrg orgs pid = some po) : po ∈ orgs ∧ po.id = pid := by
  refine ⟨List.mem_of_find?_eq_some h, ?_⟩
  have := List.find?_some h
  simpa using this

theorem findOrg_eq_of_mem {orgs : List Org} {po : Org}
    (hids : (orgs.map (·.id)).Nodup) (hmem : po ∈ orgs) :
    findOrg orgs po.id = some po := by
  induction orgs with
  | nil => cases hmem
  | cons x t ih =>
    rw [List.map_cons, List.nodup_cons] at hids
    unfold findOrg
    rw [List.find?_cons]
    by_cases hx : x.id = po.id
    · simp only [hx, beq_self_eq_true]
      rcases List.mem_cons.mp hmem with h | h
      · rw [h]
      · exfalso
        exact hids.1 (by rw [hx]; exact List.mem_map.mpr ⟨po, h, rfl⟩)
    · simp only [beq_eq_false_iff_ne.mpr (fun he => hx (by simpa using he)),
        Bool.false_eq_true, if_false]  -- keep the search going in the tail
      rcases List.mem_cons.mp hmem with h | h
      · exact absurd (congrArg Org.id h.symm) hx
      · exact ih hids.2 h

theorem length_filter_lt_of_mem_not {α : Type} (l : List α) (p : α → Bool)
    (a : α) (hmem : a ∈ l) (hpa : p a = false) :
    (l.filter p).length < l.length := by
  have hs : List.Sublist (l.filter p) l := List.filter_sublist l
  rcases Nat.lt_or_ge (l.filter p).length l.length with h | h
  · exact h
  · exfalso
    have heq : l.filter p = l := hs.eq_of_length (Nat.le_antisymm hs.length_le h)
    have : a ∈ l.filter p := heq.symm ▸ hmem
    rw [List.mem_filter, hpa] at this
    exact Bool.false_ne_true this.2

theorem countAbove_parent_lt {levels : List OrgLevel} {orgs : List Org}
    {o po : Org} (hpo : po ∈ orgs)
    (hlt : optLt (olevelOf levels o) (olevelOf levels po) = true) :
    countAbove levels orgs po < countAbove levels orgs o := by
  unfold countAbove
  have hmono : List.Sublist
      (orgs.filter (fun x => optLt (olevelOf levels po) (olevelOf levels x)))
      (orgs.filter (fun x => optLt (olevelOf levels o) (olevelOf levels x))) := by
    apply List.monotone_filter_right
    intro x hx
    unfold optLt at hlt hx ⊢
    cases ho : olevelOf levels o with
    | none => rw [ho] at hlt; cases hlt
    | some lo =>
      cases hp : olevelOf levels po with
      | none => rw [ho, hp] at hlt; cases hlt
      | some lp =>
        cases hxx : olevelOf levels x with
        | none => rw [hp, hxx] at hx; cases hx
        | some lx =>
          rw [ho, hp] at hlt
          rw [hp, hxx] at hx
          simp only [decide_eq_true_eq] at hlt hx
          show decide (lo < lx) = true
          simp only [decide_eq_true_eq]
          omega
  rcases Nat.lt_or_ge
    (orgs.filter (fun x => optLt (olevelOf levels po) (olevelOf levels x))).length
    (orgs.filter (fun x => optLt (olevelOf levels o) (olevelOf levels x))).length with h | h
  · exact h
  · exfalso
    have heq := hmono.eq_of_length (Nat.le_antisymm hmono.length_le h)
    have hin : po ∈ orgs.filter (fun x => optLt (olevelOf levels o) (olevelOf levels x)) :=
      List.mem_filter.mpr ⟨hpo, hlt⟩
    rw [← heq, List.mem_filter] at hin
    have : optLt (olevelOf levels po) (olevelOf levels po) = true := hin.2
    unfold optLt at this
    cases hp : olevelOf levels po with
    | none => rw [hp] at this; cases this
    | some lp => rw [hp] at this; simp at this

theorem intercalate_singleton {α : Type} (sep : List α) (x : List α) :
    List.intercalate sep [x] = x := by
  simp [List.intercalate, List.intersperse]

theorem intercalate_cons_cons {α : Type} (sep a b : List α) (t : List (List α)) :
    List.intercalate sep (a :: b :: t) =
      a ++ sep ++ List.intercalate sep (b :: t) := by
  simp [List.intercalate, List.intersperse]

theorem intercalate_append_one {α : Type} (sep x : List α) :
    ∀ (l : List (List α)), l ≠ [] →
      List.intercalate sep (l ++ [x]) = List.intercalate sep l ++ sep ++ x := by
  intro l
  induction l with
  | nil => intro h; exact absurd rfl h
  | cons a t ih =>
    intro _
    cases t with
    | nil =>
      show List.intercalate sep [a, x] = List.intercalate sep [a] ++ sep ++ x
      rw [intercalate_cons_cons, intercalate_singleton, intercalate_singleton]
    | cons b t2 =>
      have hih := ih (by simp)
      rw [List.cons_append] at hih
      rw [List.cons_append, List.cons_append, intercalate_cons_cons, hih,
        intercalate_cons_cons]
      simp [List.append_assoc]

theorem fullcodeAux_mono (orgs : List Org) :
    ∀ fuel fuel' o c, fuel ≤ fuel' → fullcodeAux orgs fuel o = some c →
      fullcodeAux orgs fuel' o = some c := by
  intro fuel
  induction fuel with
  | zero =>
    intro fuel' o c _ h
    simp [fullcodeAux] at h
  | succ f ih =>
    intro fuel' o c hle h
    cases fuel' with
    | zero => omega
    | succ f' =>
      cases hp : o.parent with
      | none =>
        unfold fullcodeAux at h ⊢
        simp only [hp] at h ⊢
        exact h
      | some pid =>
        unfold fullcodeAux at h ⊢
        simp only [hp] at h ⊢
        cases hf : findOrg orgs pid with
        | none => simp [hf] at h
        | some po =>
          simp only [hf] at h ⊢
          cases ha : fullcodeAux orgs f po with
          | none => simp [ha] at h
          | some pc =>
            simp only [ha] at h
            rw [ih f' po pc (by omega) ha]
            exact h

theorem optLt_irrefl (a : Option Int) : optLt a a = false := by
  cases a with
  | none => rfl
  | some x => simp [optLt]

theorem countAbove_lt_length (levels : List OrgLevel) {orgs : List Org}
    {o : Org} (ho : o ∈ orgs) : countAbove levels orgs o < orgs.length :=
  length_filter_lt_of_mem_not orgs _ o ho (optLt_irrefl _)

theorem parentOk_resolve {levels : List OrgLevel} {orgs : List Org}
    {o : Org} {pid : Nat} (hok : parentOk levels orgs o = true)
    (hp : o.parent = some pid) :
    ∃ po, findOrg orgs pid = some po ∧ po ∈ orgs ∧
      optLt (olevelOf levels o) (olevelOf levels po) = true := by
  unfold parentOk at hok
  simp only [hp] at hok
  cases hf : findOrg orgs pid with
  | none => simp [hf] at hok
  | some po =>
    simp only [hf] at hok
    exact ⟨po, rfl, (findOrg_mem hf).1, hok⟩

theorem ancestors_fullcode_ok (levels : List OrgLevel) (orgs : List Org)
    (hWF : orgForestWF levels orgs = true) :
    ∀ fuel o, o ∈ orgs → countAbove levels orgs o < fuel →
      ∃ anc, ancestorsAux orgs fuel o = some anc ∧ (∀ x ∈ anc, x ∈ orgs) ∧
        fullcodeAux orgs fuel o =
          some (List.intercalate ['-'] ((anc ++ [o]).map (·.code))) := by
  intro fuel
  induction fuel with
  | zero => intro o _ h; omega
  | succ f ih =>
    intro o ho hcount
    cases hp : o.parent with
    | none =>
      unfold ancestorsAux fullcodeAux
      simp only [hp]
      refine ⟨[], rfl, by simp, ?_⟩
      rw [List.nil_append, List.map_singleton, intercalate_singleton]
    | some pid =>
      have hok := (List.all_eq_true.mp hWF) o ho
      obtain ⟨po, hf, hpomem, hlt⟩ := parentOk_resolve hok hp
      have hcp : countAbove levels orgs po < f := by
        have := countAbove_parent_lt hpomem hlt
        omega
      obtain ⟨anc, ha, hmem, hfc⟩ := ih po hpomem hcp
      unfold ancestorsAux fullcodeAux
      simp only [hp, hf, ha, hfc]
      refine ⟨anc ++ [po], rfl, ?_, ?_⟩
      · intro x hx
        rcases List.mem_append.mp hx with hx | hx
        · exact hmem x hx
        · rw [List.mem_singleton] at hx
          rw [hx]
          exact hpomem
      · congr 1
        have h2 : List.intercalate ['-'] (((anc ++ [po]) ++ [o]).map (fun x => x.code)) =
            List.intercalate ['-'] ((anc ++ [po]).map (fun x => x.code)) ++ ['-'] ++ o.code := by
          rw [List.map_append]
          show List.intercalate ['-']
              ((anc ++ [po]).map (fun x => x.code) ++ [o.code]) = _
          exact intercalate_append_one _ _ _ (by simp)
        rw [h2]
        simp [List.append_assoc]

/-- C4: fullcode of a parentless Organization is its own code; with a
parent it is the parent fullcode, a hyphen, then its own code; and in
general it is the hyphen-joined concatenation of the codes of all
ancestors from the root down to the organization itself. -/
theorem C4_fullcode (levels : List OrgLevel) (orgs : List Org) (o : Org)
    (hWF : orgForestWF levels orgs = true) (ho : o ∈ orgs) :
    (o.parent = none → fullcode orgs o = some o.code) ∧
    (∀ pid, o.parent = some pid → ∃ po pc, findOrg orgs pid = some po ∧
      fullcode orgs po = some pc ∧ fullcode orgs o = some (pc ++ '-' :: o.code)) ∧
    (∃ anc, ancestors orgs o = some anc ∧
      fullcode orgs o =
        some (List.intercalate ['-'] ((anc ++ [o]).map (·.code)))) := by
  have hcount := countAbove_lt_length levels ho
  obtain ⟨anc, ha, hmem, hfc⟩ :=
    ancestors_fullcode_ok levels orgs hWF orgs.length o ho hcount
  refine ⟨?_, ?_, ⟨anc, ha, hfc⟩⟩
  · intro hp
    cases hL : orgs.length with
    | zero =>
      rw [hL] at hcount
      omega
    | succ f =>
      unfold fullcode
      rw [hL]
      unfold fullcodeAux
      simp only [hp]
  · intro pid hp
    cases hL : orgs.length with
    | zero =>
      rw [hL] at hcount
      omega
    | succ f =>
      have hok := (List.all_eq_true.mp hWF) o ho
      obtain ⟨po, hf, hpomem, hlt⟩ := parentOk_resolve hok hp
      have hcp : countAbove levels orgs po < f := by
        have h1 := countAbove_parent_lt hpomem hlt
        omega
      obtain ⟨anc2, _, _, hfc2⟩ :=
        ancestors_fullcode_ok levels orgs hWF f po hpomem hcp
      refine ⟨po, _, hf,
        fullcodeAux_mono orgs f orgs.length po _ (by omega) hfc2, ?_⟩
      unfold fullcode
      rw [hL]
      unfold fullcodeAux
      simp only [hp, hf, hfc2]

/-- Sample database used by witnesses: a two-tier level hierarchy and
two organizations (a root and one child). -/
def sampleLevels : List OrgLevel :=
  [{ id := 1, name := chars "University", level := 40, parent := none,
     export_to_xdmod := true },
   { id := 2, name := chars "Department", level := 20, parent := some 1,
     export_to_xdmod := true }]

/-- Sample root organization. -/
def sampleRoot : Org :=
  { id := 1, parent := none, organization_level := some 1,
    code := chars "UMD", shortname := chars "UMD", longname := chars "UMD",
    is_selectable_for_user := true, is_selectable_for_project := true }

/-- Sample child organization under `sampleRoot`. -/
def sampleChild : Org :=
  { id := 2, parent := some 1, organization_level := some 2,
    code := chars "CS", shortname := chars "CS", longname := chars "CS",
    is_selectable_for_user := true, is_selectable_for_project := true }

/-- Sample organization table. -/
def sampleOrgs : List Org := [sampleRoot, sampleChild]

/-- Witness for C4 at a concrete database. -/
theorem C4_fullcode_witness :
    orgForestWF sampleLevels sampleOrgs = true ∧ sampleChild ∈ sampleOrgs ∧
    (∃ anc, ancestors sampleOrgs sampleChild = some anc ∧
      fullcode sampleOrgs sampleChild =
        some (List.intercalate ['-'] ((anc ++ [sampleChild]).map (·.code)))) :=
  ⟨by decide, by decide,
    (C4_fullcode sampleLevels sampleOrgs sampleChild (by decide) (by decide)).2.2⟩

/-- The loop `for org in organizations: tmporgs |= set(org.ancestors())`
inside `add_parents_to_organization_list`: ancestors of every member of
the list, concatenated. -/
def collectAncestors (orgs : List Org) : List Org → Option (List Org)
  | [] => some []
  | o :: rest =>
    match ancestors orgs o with
    | none => none
    | some a =>
      match collectAncestors orgs rest with
      | none => none
      | some r => some (a ++ r)

/-- Source: `Organization.add_parents_to_organization_list`.  Returns
the input list followed by those ancestors of its members that are not
already in the input (each once: Python set difference). -/
def add_parents_to_organization_list (orgs : List Org)
    (organizations : List Org) : Option (List Org) :=
  match collectAncestors orgs organizations with
  | none => none
  | some ancs =>
    let tmporgs := (organizations ++ ancs).dedup
    let toadd := tmporgs.filter fun x => decide (x ∉ organizations)
    some (organizations ++ toadd)

theorem collectAncestors_ok (orgs : List Org) :
    ∀ l, (∀ o ∈ l, ∃ a, ancestors orgs o = some a) →
      ∃ ancs, collectAncestors orgs l = some ancs ∧
        ∀ x, (x ∈ ancs ↔ ∃ o ∈ l, ∃ a, ancestors orgs o = some a ∧ x ∈ a) := by
  intro l
  induction l with
  | nil => exact fun _ => ⟨[], rfl, by simp⟩
  | cons o rest ih =>
    intro h
    obtain ⟨a, ha⟩ := h o (by simp)
    obtain ⟨ancs, hc, hiff⟩ := ih (fun x hx => h x (by simp [hx]))
    refine ⟨a ++ ancs, ?_, ?_⟩
    · unfold collectAncestors
      simp only [ha, hc]
    · intro x
      rw [List.mem_append, hiff x]
      constructor
      · rintro (hx | ⟨o2, ho2, a2, ha2, hx⟩)
        · exact ⟨o, by simp, a, ha, hx⟩
        · exact ⟨o2, by simp [ho2], a2, ha2, hx⟩
      · rintro ⟨o2, ho2, a2, ha2, hx⟩
        rcases List.mem_cons.mp ho2 with rfl | ho2
        · left
          rw [ha] at ha2
          cases ha2
          exact hx
        · right
          exact ⟨o2, ho2, a2, ha2, hx⟩

/-- C8: add_parents_to_organization_list returns a list that begins
with the input list unchanged and then contains every transitive
ancestor of every input organization, with each ancestor not already in
the input appended exactly once. -/
theorem C8_add_parents_to_organization_list (levels : List OrgLevel)
    (orgs : List Org) (organizations : List Org)
    (hWF : orgForestWF levels orgs = true)
    (hin : ∀ o ∈ organizations, o ∈ orgs) :
    ∃ extra, add_parents_to_organization_list orgs organizations =
        some (organizations ++ extra) ∧
      extra.Nodup ∧
      (∀ x ∈ extra, x ∉ organizations ∧
        ∃ o ∈ organizations, ∃ anc, ancestors orgs o = some anc ∧ x ∈ anc) ∧
      (∀ o ∈ organizations, ∀ anc, ancestors orgs o = some anc →
        ∀ x ∈ anc, x ∈ organizations ∨ x ∈ extra) := by
  have hex : ∀ o ∈ organizations, ∃ a, ancestors orgs o = some a := by
    intro o ho
    obtain ⟨anc, ha, _, _⟩ := ancestors_fullcode_ok levels orgs hWF
      orgs.length o (hin o ho) (countAbove_lt_length levels (hin o ho))
    exact ⟨anc, ha⟩
  obtain ⟨ancs, hc, hiff⟩ := collectAncestors_ok orgs organizations hex
  refine ⟨((organizations ++ ancs).dedup).filter fun x => decide (x ∉ organizations),
    ?_, ?_, ?_, ?_⟩
  · unfold add_parents_to_organization_list
    simp only [hc]
  · exact List.Nodup.filter _ (List.nodup_dedup _)
  · intro x hx
    rw [List.mem_filter, decide_eq_true_eq] at hx
    refine ⟨hx.2, ?_⟩
    have hxd := List.mem_dedup.mp hx.1
    rcases List.mem_append.mp hxd with hx1 | hx1
    · exact absurd hx1 hx.2
    · exact (hiff x).mp hx1
  · intro o ho anc ha x hx
    by_cases hxo : x ∈ organizations
    · exact Or.inl hxo
    · refine Or.inr (List.mem_filter.mpr ⟨?_, by simpa using hxo⟩)
      exact List.mem_dedup.mpr (List.mem_append.mpr
        (Or.inr ((hiff x).mpr ⟨o, ho, anc, ha, hx⟩)))

/-- Witness for C8 at a concrete database. -/
theorem C8_add_parents_witness :
    orgForestWF sampleLevels sampleOrgs = true ∧
    (∀ o ∈ [sampleChild], o ∈ sampleOrgs) ∧
    (∃ extra, add_parents_to_organization_list sampleOrgs [sampleChild] =
        some ([sampleChild] ++ extra) ∧
      extra.Nodup ∧
      (∀ x ∈ extra, x ∉ [sampleChild] ∧
        ∃ o ∈ [sampleChild], ∃ anc, ancestors sampleOrgs o = some anc ∧ x ∈ anc) ∧
      (∀ o ∈ [sampleChild], ∀ anc, ancestors sampleOrgs o = some anc →
        ∀ x ∈ anc, x ∈ [sampleChild] ∨ x ∈ extra)) :=
  ⟨by decide, by decide,
    C8_add_parents_to_organization_list sampleLevels sampleOrgs [sampleChild]
      (by decide) (by decide)⟩

/-- One row of the UserProfile table (Django model `UserProfile` in
coldfront/core/user/models.py): the OneToOneField to auth.User, the
is_pi flag, the nullable primary_organization foreign key and the
additional_organizations many-to-many.  `id` is the primary key, None
for an instance not yet saved.  The model defines NO field, relation or
related_name called `organizations`. -/
structure UserProfile where
  id : Option Nat
  user : Nat
  is_pi : Bool
  primary_organization : Option Nat
  additional_organizations : List Nat
  deriving DecidableEq

/-- The Python attribute access `user.organizations` performed by
`update_user_organizations`: UserProfile defines only the fields above
(and no other model in the code base attaches a related manager named
`organizations` to it), so the access raises AttributeError.  This
returns the exception's message. -/
def userProfileOrganizations (_user : UserProfile) : List Char :=
  chars "AttributeError: UserProfile object has no attribute organizations"

/-- Source: `Organization.update_user_organizations`, as the code
actually executes.  orgs2add is the given list, augmented with parents
when addParents is set (fuelled traversal: the outer `none` only for an
ill-formed forest).  For a user already saved to the database
(`user.id is not None`), the next statement evaluated is
`oldorgset = set(user.organizations.all())`, which raises
AttributeError.  For an unsaved user oldorgset stays empty, so every
member of orgs2add is to be added: a non-dryrun call raises the same
AttributeError at `user.organizations.add` on the first one, and
otherwise the method returns the added set and the (here always empty)
removed list without touching the user. -/
def update_user_organizations (orgs : List Org) (user : UserProfile)
    (organizations : List Org) (addParents delete dryrun : Bool) :
    Option (Except (List Char) (List Org × List Org)) :=
  match (if addParents then add_parents_to_organization_list orgs organizations
         else some organizations) with
  | none => none
  | some orgs2addList =>
    let orgs2add := orgs2addList.dedup
    match user.id with
    | some _ => some (Except.error (userProfileOrganizations user))
    | none =>
      let neworgs := orgs2add
      if !dryrun && !neworgs.isEmpty then
        some (Except.error (userProfileOrganizations user))
      else
        some (Except.ok (neworgs, []))

/-- C10: the claimed dryrun/delete behaviour is unreachable.  The method
body reads `user.organizations`, a relation the UserProfile model does
not define (it has only primary_organization and
additional_organizations), so the call raises AttributeError for every
user already saved to the database, whatever the delete and dryrun
flags; and a non-dryrun call for an unsaved user raises the same
AttributeError as soon as there is an organization to add. -/
theorem C10_update_user_organizations_bug (orgs : List Org)
    (organizations : List Org) (u i : Nat) (b : Bool) (po : Option Nat)
    (ao : List Nat) (delete dryrun : Bool) (org1 : Org) :
    update_user_organizations orgs
      { id := some i, user := u, is_pi := b, primary_organization := po,
        additional_organizations := ao }
      organizations false delete dryrun
      = some (Except.error
        (chars "AttributeError: UserProfile object has no attribute organizations")) ∧
    update_user_organizations orgs
      { id := none, user := u, is_pi := b, primary_organization := po,
        additional_organizations := ao }
      (org1 :: organizations) false delete false
      = some (Except.error
        (chars "AttributeError: UserProfile object has no attribute organizations")) := by
  constructor
  · rfl
  · have hmem : org1 ∈ (org1 :: organizations).dedup :=
      List.mem_dedup.mpr (List.mem_cons_self _ _)
    have hne : ((org1 :: organizations).dedup).isEmpty = false := by
      rw [List.isEmpty_eq_false]
      intro hcon
      rw [hcon] at hmem
      cases hmem
    show (if (!false && !((org1 :: organizations).dedup).isEmpty) = true then
        some (Except.error
          (chars "AttributeError: UserProfile object has no attribute organizations"))
      else some (Except.ok ((org1 :: organizations).dedup, ([] : List Org))))
      = some (Except.error
        (chars "AttributeError: UserProfile object has no attribute organizations"))
    rw [hne]
    rfl

/-- Source: `Organization.get_organization_by_fullcode`.  Splits the
given full code on hyphens, filters organizations by the last segment,
and scans for a fullcode match only when the string had a hyphen. -/
def get_organization_by_fullcode (orgs : List Org) (full : List Char) :
    Option Org :=
  let codes := full.splitOn '-'
  let lastcode := codes.getLastD []
  let cands := orgs.filter fun o => o.code == lastcode
  if codes.length > 1 then
    cands.find? fun o => fullcode orgs o == some full
  else
    cands.head?

theorem getLastD_append_one {α : Type} (l : List α) (x d : α) :
    (l ++ [x]).getLastD d = x := by
  induction l generalizing d with
  | nil => rfl
  | cons a t ih =>
    rw [List.cons_append, List.getLastD_cons]
    exact ih a

theorem length_splitOnP {α : Type} (p : α → Bool) (l : List α) :
    (l.splitOnP p).length = l.countP p + 1 := by
  induction l with
  | nil => simp [List.splitOnP_nil]
  | cons a t ih =>
    rw [List.splitOnP_cons]
    by_cases h : p a
    · rw [if_pos h]
      simp [List.countP_cons, h, ih]
    · rw [if_neg h]
      have hlen : ((t.splitOnP p).modifyHead (List.cons a)).length
          = (t.splitOnP p).length := by
        cases t.splitOnP p with
        | nil => rfl
        | cons h2 t2 => rfl
      rw [hlen, ih]
      simp [List.countP_cons, h]

theorem splitOn_length_gt_one_iff (full : List Char) :
    ('-' ∈ full) ↔ (full.splitOn '-').length > 1 := by
  unfold List.splitOn
  rw [length_splitOnP]
  have : full.countP (· == '-') = full.count '-' := rfl
  rw [this]
  constructor
  · intro h
    have := List.count_pos_iff.mpr h
    omega
  · intro h
    have : 0 < full.count '-' := by omega
    exact List.count_pos_iff.mp this

theorem splitOn_no_sep (full : List Char) (h : '-' ∉ full) :
    full.splitOn '-' = [full] := by
  unfold List.splitOn
  refine List.splitOnP_eq_single _ _ ?_
  intro x hx
  simp only [beq_eq_false_iff_ne, ne_eq, beq_iff_eq]
  intro he
  exact h (he ▸ hx)

theorem fullcode_getLastD (levels : List OrgLevel) (orgs : List Org)
    (hWF : orgForestWF levels orgs = true)
    (hcodes : ∀ o ∈ orgs, '-' ∉ o.code) (o : Org) (ho : o ∈ orgs)
    (full : List Char) (hfc : fullcode orgs o = some full) :
    (full.splitOn '-').getLastD [] = o.code := by
  obtain ⟨anc, _, hmem, hfc2⟩ := ancestors_fullcode_ok levels orgs hWF
    orgs.length o ho (countAbove_lt_length levels ho)
  unfold fullcode at hfc
  rw [hfc2] at hfc
  have hfull : full = List.intercalate ['-'] ((anc ++ [o]).map (·.code)) :=
    (Option.some.inj hfc).symm
  have hsplit : full.splitOn '-' = (anc ++ [o]).map (·.code) := by
    rw [hfull]
    refine List.splitOn_intercalate _ '-' ?_ (by simp)
    intro l hl
    rw [List.mem_map] at hl
    obtain ⟨x, hx, rfl⟩ := hl
    rcases List.mem_append.mp hx with hx | hx
    · exact hcodes x (hmem x hx)
    · rw [List.mem_singleton] at hx
      rw [hx]
      exact hcodes o ho
  rw [hsplit, List.map_append, List.map_singleton, getLastD_append_one]

/-- Counterexample to C5: in the sample database no Organization has
fullcode CS (the two fullcodes are UMD and UMD-CS), and the string CS
contains no hyphen, yet get_organization_by_fullcode returns the child
organization, whose fullcode is UMD-CS, not CS, instead of None. -/
theorem C5_counterexample :
    (∀ o ∈ sampleOrgs, fullcode sampleOrgs o ≠ some (chars "CS")) ∧
    get_organization_by_fullcode sampleOrgs (chars "CS") = some sampleChild ∧
    fullcode sampleOrgs sampleChild ≠ some (chars "CS") := by
  decide

/-- C5 amended: when the string contains a hyphen, the lookup returns an
Organization whose fullcode equals the string when one exists and None
when none does; when the string contains no hyphen, it returns the first
Organization whose code (not fullcode) equals the string, or None when
no Organization has that code — such an Organization may have a parent
and a fullcode different from the string. -/
theorem C5_get_organization_by_fullcode (levels : List OrgLevel)
    (orgs : List Org) (full : List Char)
    (hWF : orgForestWF levels orgs = true)
    (hcodes : ∀ o ∈ orgs, '-' ∉ o.code) :
    (('-' ∈ full) →
      (∀ o, get_organization_by_fullcode orgs full = some o →
        fullcode orgs o = some full) ∧
      (get_organization_by_fullcode orgs full = none →
        ∀ o ∈ orgs, fullcode orgs o ≠ some full)) ∧
    (('-' ∉ full) →
      (∀ o, get_organization_by_fullcode orgs full = some o →
        o ∈ orgs ∧ o.code = full) ∧
      (get_organization_by_fullcode orgs full = none →
        ∀ o ∈ orgs, o.code ≠ full)) := by
  constructor
  · intro hsep
    have hgt := (splitOn_length_gt_one_iff full).mp hsep
    unfold get_organization_by_fullcode
    simp only [if_pos hgt]
    constructor
    · intro o h
      have := List.find?_some h
      simpa using this
    · intro h o ho hfc
      rw [List.find?_eq_none] at h
      have hcode : o.code = (full.splitOn '-').getLastD [] :=
        (fullcode_getLastD levels orgs hWF hcodes o ho full hfc).symm
      have hmem : o ∈ orgs.filter
          fun x => x.code == (full.splitOn '-').getLastD [] :=
        List.mem_filter.mpr ⟨ho, by rw [hcode]; exact beq_self_eq_true _⟩
      have := h o hmem
      simp [hfc] at this
  · intro hsep
    have hone : full.splitOn '-' = [full] := splitOn_no_sep full hsep
    unfold get_organization_by_fullcode
    rw [hone]
    simp only [List.length_singleton, gt_iff_lt, lt_irrefl, if_false]
    constructor
    · intro o h
      have hmem : o ∈ orgs.filter fun x => x.code == [full].getLastD [] := by
        cases hc : orgs.filter fun x => x.code == [full].getLastD [] with
        | nil => rw [hc] at h; cases h
        | cons y t =>
          rw [hc] at h
          have hoy : y = o := by simpa using h
          rw [← hoy]
          exact List.mem_cons_self _ _
      have := List.mem_filter.mp hmem
      refine ⟨this.1, ?_⟩
      have hcd := this.2
      simpa using hcd
    · intro h o ho
      rw [List.head?_eq_none_iff] at h
      intro hcd
      have : o ∈ orgs.filter fun x => x.code == [full].getLastD [] :=
        List.mem_filter.mpr ⟨ho, by simp [hcd]⟩
      rw [h] at this
      cases this

/-- Witness for the amended C5 at a concrete database. -/
theorem C5_get_organization_by_fullcode_witness :
    (('-' ∈ chars "UMD-CS") →
      (∀ o, get_organization_by_fullcode sampleOrgs (chars "UMD-CS") = some o →
        fullcode sampleOrgs o = some (chars "UMD-CS")) ∧
      (get_organization_by_fullcode sampleOrgs (chars "UMD-CS") = none →
        ∀ o ∈ sampleOrgs, fullcode sampleOrgs o ≠ some (chars "UMD-CS"))) ∧
    (('-' ∉ chars "UMD-CS") →
      (∀ o, get_organization_by_fullcode sampleOrgs (chars "UMD-CS") = some o →
        o ∈ sampleOrgs ∧ o.code = chars "UMD-CS") ∧
      (get_organization_by_fullcode sampleOrgs (chars "UMD-CS") = none →
        ∀ o ∈ sampleOrgs, o.code ≠ chars "UMD-CS")) :=
  C5_get_organization_by_fullcode sampleLevels sampleOrgs (chars "UMD-CS")
    (by decide) (by decide)

/-- Source: `Organization.clean`.  With validation checks disabled it
returns immediately; otherwise it resolves the organization level and
its parent level, requires a parent organization at exactly the parent
level (and strictly above its own) when the level has a parent, and
forbids a parent organization when the level is the root level.
Foreign-key accesses that do not resolve raise, as in Django. -/
def organizationClean (levels : List OrgLevel) (orgs : List Org)
    (disabled : Bool) (o : Org) : Except (List Char) Unit :=
  if disabled then Except.ok () else
  match o.organization_level with
  | none => Except.error (chars "RelatedObjectDoesNotExist")
  | some olid =>
    match findLevel levels olid with
    | none => Except.error (chars "OrganizationLevel matching query does not exist")
    | some orglevel_obj =>
      match orglevel_obj.parent with
      | some pid =>
        match findLevel levels pid with
        | none => Except.error (chars "orglevel parent does not exist")
        | some orglevel_parent =>
          match o.parent with
          | none => Except.error (chars "is not top-level, but does not have parent")
          | some opid =>
            match findOrg orgs opid with
            | none => Except.error (chars "parent organization does not exist")
            | some po =>
              match po.organization_level with
              | none => Except.error (chars "parent RelatedObjectDoesNotExist")
              | some polid =>
                match findLevel levels polid with
                | none => Except.error (chars "parent orglevel does not exist")
                | some plev =>
                  if plev.level ≤ orglevel_obj.level then
                    Except.error (chars "has parent of lower level")
                  else if plev.level ≠ orglevel_parent.level then
                    Except.error (chars "parent level differs from orglevels parent level")
                  else Except.ok ()
      | none =>
        match o.parent with
        | some _ => Except.error (chars "is top-level, but has parent")
        | none => Except.ok ()

/-- C6: with validation checks enabled, the Organization-level
validation (`clean`, run by `save` through `full_clean`) succeeds
exactly when the organization_level matches the chain position implied
by the ancestry: with a parent level, the Organization must have a
parent whose own level equals that parent level and is strictly greater
than its level; with a root organization_level it must have no
parent. -/
theorem C6_organization_clean (levels : List OrgLevel) (orgs : List Org)
    (o : Org) (olid : Nat) (olev : OrgLevel)
    (h1 : o.organization_level = some olid)
    (h2 : findLevel levels olid = some olev) :
    organizationClean levels orgs false o = Except.ok () ↔
      (match olev.parent with
       | none => o.parent = none
       | some pid =>
         ∃ polev, findLevel levels pid = some polev ∧
         ∃ opid po polid plev, o.parent = some opid ∧
           findOrg orgs opid = some po ∧
           po.organization_level = some polid ∧
           findLevel levels polid = some plev ∧
           plev.level = polev.level ∧ olev.level < plev.level) := by
  unfold organizationClean
  rw [if_neg (by simp)]
  simp only [h1, h2]
  cases hop : olev.parent with
  | none =>
    try simp only [hop]
    cases hpar : o.parent with
    | none => simp [hpar]
    | some opid => simp [hpar]
  | some pid =>
    try simp only [hop]
    cases hpl : findLevel levels pid with
    | none => simp [hpl]
    | some polev =>
      try simp only [hpl]
      cases hpar : o.parent with
      | none => simp [hpar]
      | some opid =>
        try simp only [hpar]
        cases hfo : findOrg orgs opid with
        | none => simp [hfo]
        | some po =>
          try simp only [hfo]
          cases hpol : po.organization_level with
          | none => simp [hfo, hpol]
          | some polid =>
            try simp only [hpol]
            cases hplev : findLevel levels polid with
            | none => simp [hfo, hpol, hplev]
            | some plev =>
              try simp only [hplev]
              by_cases hle : plev.level ≤ olev.level
              · rw [if_pos hle]
                refine iff_of_false (by simp) ?_
                rintro ⟨polev2, hp2, opid2, po2, polid2, plev2,
                  he1, he2, he3, he4, he5, he6⟩
                simp only [hpl, Option.some.injEq] at hp2
                subst hp2
                simp only [hpar, Option.some.injEq] at he1
                subst he1
                simp only [hfo, Option.some.injEq] at he2
                subst he2
                simp only [hpol, Option.some.injEq] at he3
                subst he3
                simp only [hplev, Option.some.injEq] at he4
                subst he4
                omega
              · rw [if_neg hle]
                by_cases hne : plev.level = polev.level
                · rw [if_neg (by simp [hne])]
                  refine iff_of_true rfl
                    ⟨polev, by simp [hpl], opid, po, polid, plev, by simp [hpar],
                      by simp [hfo], by simp [hpol], by simp [hplev], hne, by omega⟩
                · rw [if_pos (by simp [hne])]
                  refine iff_of_false (by simp) ?_
                  rintro ⟨polev2, hp2, opid2, po2, polid2, plev2,
                    he1, he2, he3, he4, he5, he6⟩
                  simp only [hpl, Option.some.injEq] at hp2
                  subst hp2
                  simp only [hpar, Option.some.injEq] at he1
                  subst he1
                  simp only [hfo, Option.some.injEq] at he2
                  subst he2
                  simp only [hpol, Option.some.injEq] at he3
                  subst he3
                  simp only [hplev, Option.some.injEq] at he4
                  subst he4
                  exact hne he5

/-- Witness for C6 at a concrete database. -/
theorem C6_organization_clean_witness :
    sampleChild.organization_level = some 2 ∧
    (organizationClean sampleLevels sampleOrgs false sampleChild = Except.ok () ↔
      (match ({ id := 2, name := chars "Department", level := 20,
                parent := some 1, export_to_xdmod := true } : OrgLevel).parent with
       | none => sampleChild.parent = none
       | some pid =>
         ∃ polev, findLevel sampleLevels pid = some polev ∧
         ∃ opid po polid plev, sampleChild.parent = some opid ∧
           findOrg sampleOrgs opid = some po ∧
           po.organization_level = some polid ∧
           findLevel sampleLevels polid = some plev ∧
           plev.level = polev.level ∧
           ({ id := 2, name := chars "Department", level := 20,
              parent := some 1, export_to_xdmod := true } : OrgLevel).level < plev.level)) :=
  ⟨by decide,
    C6_organization_clean sampleLevels sampleOrgs sampleChild 2
      { id := 2, name := chars "Department", level := 20,
        parent := some 1, export_to_xdmod := true }
      (by decide) (by decide)⟩

/-- The queryset of parentless OrganizationLevels. -/
def rootsOf (levels : List OrgLevel) : List OrgLevel :=
  levels.filter fun x => x.parent == none

/-- The queryset of OrganizationLevels whose parent is `ol`. -/
def childrenOf (levels : List OrgLevel) (ol : OrgLevel) : List OrgLevel :=
  levels.filter fun x => x.parent == some ol.id

/-- The while loop of `generate_orglevel_hierarchy_list`: repeatedly
append the child of the last appended OrganizationLevel; in validate
mode raise when a level has several children.  Fuelled: the Python loop
terminates because primary keys are unique, and the fuel given at the
top level is shown adequate. -/
def genLoop (levels : List OrgLevel) (validate : Bool) :
    Nat → OrgLevel → Except (List Char) (List OrgLevel)
  | 0, _ => Except.error (chars "FUEL")
  | fuel + 1, last =>
    match childrenOf levels last with
    | [] => Except.ok []
    | c :: rest =>
      if validate && !rest.isEmpty then
        Except.error (chars "orglevel has multiple children")
      else
        match genLoop levels validate fuel c with
        | Except.error e => Except.error e
        | Except.ok tl => Except.ok (c :: tl)

/-- Source: `OrganizationLevel.generate_orglevel_hierarchy_list`. -/
def generate_orglevel_hierarchy_list (levels : List OrgLevel)
    (validate : Bool) : Except (List Char) (List OrgLevel) :=
  match rootsOf levels with
  | [] => Except.ok []
  | r :: rest =>
    if validate && !rest.isEmpty then
      Except.error (chars "hierarchy has multiple parentless members")
    else
      match genLoop levels validate levels.length r with
      | Except.error e => Except.error e
      | Except.ok tl => Except.ok (r :: tl)

/-- The final loop of `validate_orglevel_hierarchy` over the generated
hierarchy: each level strictly below the previous one, all names
fresh. -/
def scanLoop : Option Int → List (List Char) → List OrgLevel →
    Except (List Char) Unit
  | _, _, [] => Except.ok ()
  | lastlevel, allnames, orglev :: rest =>
    match lastlevel with
    | none =>
      if orglev.name ∈ allnames then
        Except.error (chars "multiple OrganizationLevels with same name")
      else scanLoop (some orglev.level) (orglev.name :: allnames) rest
    | some ll =>
      if ll ≤ orglev.level then
        Except.error (chars "parent OrgLevel level is not greater than child")
      else if orglev.name ∈ allnames then
        Except.error (chars "multiple OrganizationLevels with same name")
      else scanLoop (some orglev.level) (orglev.name :: allnames) rest

/-- Source: `OrganizationLevel.validate_orglevel_hierarchy`. -/
def validate_orglevel_hierarchy (levels : List OrgLevel) :
    Except (List Char) Unit :=
  if levels.length = 0 then Except.ok ()
  else
    match generate_orglevel_hierarchy_list levels true with
    | Except.error e => Except.error e
    | Except.ok hier =>
      if levels.length ≠ hier.length then
        Except.error (chars "hierarchy size disagrees with total number")
      else scanLoop none [] hier

/-- The single-chain property claim C1 describes: exactly one parentless
root; at most one child per level; every non-root level hangs under an
existing level of strictly greater value (hence all levels lie on the
chain from the root, with level values strictly decreasing from root to
leaf); and all names unique. -/
def validOrglevelChain (levels : List OrgLevel) : Prop :=
  (levels.filter fun x => x.parent == none).length = 1 ∧
  (∀ ol ∈ levels, (levels.filter fun x => x.parent == some ol.id).length ≤ 1) ∧
  (∀ ol ∈ levels, ol.parent = none ∨
    ∃ q ∈ levels, ol.parent = some q.id ∧ ol.level < q.level) ∧
  (levels.map (·.name)).Nodup

theorem length_filter_lt_of {α : Type} (l : List α) (p q : α → Bool)
    (hpq : ∀ a, p a = true → q a = true) (c : α) (hc : c ∈ l)
    (hqc : q c = true) (hpc : p c = false) :
    (l.filter p).length < (l.filter q).length := by
  have hmono : List.Sublist (l.filter p) (l.filter q) :=
    List.monotone_filter_right l hpq
  rcases Nat.lt_or_ge (l.filter p).length (l.filter q).length with h | h
  · exact h
  · exfalso
    have heq := hmono.eq_of_length (Nat.le_antisymm hmono.length_le h)
    have hcin : c ∈ l.filter q := List.mem_filter.mpr ⟨hc, hqc⟩
    rw [← heq, List.mem_filter, hpc] at hcin
    exact Bool.false_ne_true hcin.2

theorem nodup_id_inj {levels : List OrgLevel}
    (hids : (levels.map (·.id)).Nodup) {a b : OrgLevel}
    (ha : a ∈ levels) (hb : b ∈ levels) (hab : a.id = b.id) : a = b :=
  List.inj_on_of_nodup_map hids ha hb hab

theorem mem_len_le_one_eq {α : Type} {l : List α} {x : α}
    (hx : x ∈ l) (hlen : l.length ≤ 1) : l = [x] := by
  cases l with
  | nil => cases hx
  | cons a t =>
    cases t with
    | nil =>
      rw [List.mem_singleton] at hx
      rw [hx]
    | cons b t2 => simp at hlen

theorem childrenOf_mem {levels : List OrgLevel} {ol c : OrgLevel}
    (h : c ∈ childrenOf levels ol) : c ∈ levels ∧ c.parent = some ol.id := by
  unfold childrenOf at h
  rw [List.mem_filter] at h
  refine ⟨h.1, ?_⟩
  have := h.2
  simpa using this

theorem genLoop_ok_props (levels : List OrgLevel) :
    ∀ fuel last tl, genLoop levels true fuel last = Except.ok tl →
      List.Chain (fun a b => b.parent = some a.id) last tl ∧
      (∀ x ∈ tl, x ∈ levels) ∧
      (∀ x ∈ last :: tl, (childrenOf levels x).length ≤ 1) := by
  intro fuel
  induction fuel with
  | zero =>
    intro last tl h
    simp [genLoop] at h
  | succ f ih =>
    intro last tl h
    unfold genLoop at h
    cases hc : childrenOf levels last with
    | nil =>
      rw [hc] at h
      cases h
      refine ⟨List.Chain.nil, by simp, ?_⟩
      intro x hx
      rw [List.mem_singleton] at hx
      rw [hx, hc]
      simp
    | cons c rest =>
      rw [hc] at h
      cases hrest : rest with
      | cons d t =>
        rw [hrest] at h
        simp at h
      | nil =>
        rw [hrest] at h
        simp only [List.isEmpty_nil, Bool.not_true, Bool.and_false,
          Bool.false_eq_true, if_false, Bool.and_true] at h
        cases hg : genLoop levels true f c with
        | error e => rw [hg] at h; cases h
        | ok tl' =>
          rw [hg] at h
          cases h
          obtain ⟨hchain, hmem, hcount⟩ := ih c tl' hg
          have hcprop := childrenOf_mem (hc ▸ List.mem_cons_self c rest)
          refine ⟨List.Chain.cons hcprop.2 hchain,
            fun x hx => ?_, fun x hx => ?_⟩
          · rcases List.mem_cons.mp hx with rfl | hx
            · exact hcprop.1
            · exact hmem x hx
          · rcases List.mem_cons.mp hx with rfl | hx
            · rw [hc, hrest]
              simp
            · exact hcount x hx

theorem scanLoop_ok_props :
    ∀ (l : List OrgLevel) (lastlevel : Option Int) (allnames : List (List Char)),
      scanLoop lastlevel allnames l = Except.ok () →
      (l.map (·.name)).Nodup ∧
      (∀ x ∈ l, x.name ∉ allnames) ∧
      List.Chain' (fun a b => b.level < a.level) l ∧
      (∀ ll x, lastlevel = some ll → l.head? = some x → x.level < ll) := by
  intro l
  induction l with
  | nil =>
    intro lastlevel allnames _
    refine ⟨List.nodup_nil, by simp, List.chain'_nil, ?_⟩
    intro ll x _ hx
    cases hx
  | cons ol rest ih =>
    intro lastlevel allnames h
    have hstep : ol.name ∉ allnames ∧
        scanLoop (some ol.level) (ol.name :: allnames) rest = Except.ok () ∧
        (∀ ll, lastlevel = some ll → ol.level < ll) := by
      unfold scanLoop at h
      cases lastlevel with
      | none =>
        replace h : (if ol.name ∈ allnames then
            (Except.error (chars "multiple OrganizationLevels with same name") :
              Except (List Char) Unit)
          else scanLoop (some ol.level) (ol.name :: allnames) rest)
            = Except.ok () := h
        by_cases hn : ol.name ∈ allnames
        · rw [if_pos hn] at h
          cases h
        · rw [if_neg hn] at h
          exact ⟨hn, h, fun ll hll => by cases hll⟩
      | some ll =>
        replace h : (if ll ≤ ol.level then
            (Except.error (chars "parent OrgLevel level is not greater than child") :
              Except (List Char) Unit)
          else if ol.name ∈ allnames then
            Except.error (chars "multiple OrganizationLevels with same name")
          else scanLoop (some ol.level) (ol.name :: allnames) rest)
            = Except.ok () := h
        by_cases hle : ll ≤ ol.level
        · rw [if_pos hle] at h
          cases h
        · rw [if_neg hle] at h
          by_cases hn : ol.name ∈ allnames
          · rw [if_pos hn] at h
            cases h
          · rw [if_neg hn] at h
            refine ⟨hn, h, ?_⟩
            intro ll2 hll
            cases hll
            omega
    obtain ⟨hname, hrec, hlast⟩ := hstep
    obtain ⟨hnodup, hfresh, hchain, hhead⟩ := ih (some ol.level) (ol.name :: allnames) hrec
    refine ⟨?_, ?_, ?_, ?_⟩
    · rw [List.map_cons, List.nodup_cons]
      refine ⟨?_, hnodup⟩
      intro hmem
      rw [List.mem_map] at hmem
      obtain ⟨x, hx, hxn⟩ := hmem
      exact hfresh x hx (by rw [hxn]; exact List.mem_cons_self _ _)
    · intro x hx
      rcases List.mem_cons.mp hx with rfl | hx
      · exact hname
      · intro hmem
        exact hfresh x hx (List.mem_cons_of_mem _ hmem)
    · rw [List.chain'_cons']
      constructor
      · intro y hy
        exact hhead ol.level y rfl hy
      · exact hchain
    · intro ll x hll hx
      cases hll
      cases hx
      exact hlast _ rfl

theorem rootsOf_mem {levels : List OrgLevel} {r : OrgLevel}
    (h : r ∈ rootsOf levels) : r ∈ levels ∧ r.parent = none := by
  unfold rootsOf at h
  rw [List.mem_filter] at h
  refine ⟨h.1, ?_⟩
  have := h.2
  simpa using this

theorem chain_pred_exists :
    ∀ (tl : List OrgLevel) (r : OrgLevel),
      List.Chain (fun a b => b.parent = some a.id) r tl →
      List.Chain' (fun a b => b.level < a.level) (r :: tl) →
      ∀ x ∈ tl, ∃ pred ∈ r :: tl, x.parent = some pred.id ∧ x.level < pred.level := by
  intro tl
  induction tl with
  | nil =>
    intro r _ _ x hx
    cases hx
  | cons c tl2 ih =>
    intro r hchain hdec x hx
    have hlink : c.parent = some r.id := (List.chain_cons.mp hchain).1
    have hchain2 : List.Chain (fun a b => b.parent = some a.id) c tl2 :=
      (List.chain_cons.mp hchain).2
    have hlt : c.level < r.level := (List.chain'_cons.mp hdec).1
    have hdec2 : List.Chain' (fun a b => b.level < a.level) (c :: tl2) :=
      (List.chain'_cons.mp hdec).2
    rcases List.mem_cons.mp hx with rfl | hx
    · exact ⟨r, List.mem_cons_self _ _, hlink, hlt⟩
    · obtain ⟨pred, hpred, hp1, hp2⟩ := ih c hchain2 hdec2 x hx
      exact ⟨pred, List.mem_cons_of_mem _ hpred, hp1, hp2⟩

theorem chainDec_pairwise :
    ∀ (l : List OrgLevel), List.Chain' (fun a b => b.level < a.level) l →
      List.Pairwise (fun a b => b.level < a.level) l := by
  intro l hl
  haveI : IsTrans OrgLevel (fun a b => b.level < a.level) :=
    ⟨fun _ _ _ h1 h2 => by omega⟩
  exact List.chain'_iff_pairwise.mp hl

theorem chainDec_nodup {l : List OrgLevel}
    (hl : List.Chain' (fun a b => b.level < a.level) l) : l.Nodup := by
  have := chainDec_pairwise l hl
  refine this.imp ?_
  intro a b h
  intro hab
  rw [hab] at h
  omega

theorem validate_ok_forward (levels : List OrgLevel)
    (hne : levels ≠ [])
    (h : validate_orglevel_hierarchy levels = Except.ok ()) :
    validOrglevelChain levels := by
  unfold validate_orglevel_hierarchy at h
  rw [if_neg (fun hl => hne (List.length_eq_zero.mp hl))] at h
  cases hg : generate_orglevel_hierarchy_list levels true with
  | error e => rw [hg] at h; cases h
  | ok hier =>
    rw [hg] at h
    replace h : (if levels.length ≠ hier.length then
        (Except.error (chars "hierarchy size disagrees with total number") :
          Except (List Char) Unit)
      else scanLoop none [] hier) = Except.ok () := h
    by_cases hlen : levels.length ≠ hier.length
    · rw [if_pos hlen] at h
      cases h
    · rw [if_neg hlen] at h
      push_neg at hlen
      unfold generate_orglevel_hierarchy_list at hg
      cases hr : rootsOf levels with
      | nil =>
        rw [hr] at hg
        cases hg
        rw [List.length_nil] at hlen
        exact absurd (List.length_eq_zero.mp hlen) hne
      | cons r rest =>
        rw [hr] at hg
        replace hg : (if true && !rest.isEmpty then
            (Except.error (chars "hierarchy has multiple parentless members") :
              Except (List Char) (List OrgLevel))
          else match genLoop levels true levels.length r with
            | Except.error e => Except.error e
            | Except.ok tl => Except.ok (r :: tl)) = Except.ok hier := hg
        cases hrest : rest with
        | cons d t =>
          rw [hrest] at hg
          simp at hg
        | nil =>
          rw [hrest] at hg
          simp only [List.isEmpty_nil, Bool.not_true, Bool.and_false,
            Bool.false_eq_true, if_false] at hg
          cases hgl : genLoop levels true levels.length r with
          | error e => rw [hgl] at hg; cases hg
          | ok tl =>
            rw [hgl] at hg
            replace hg : Except.ok (r :: tl) = Except.ok hier := hg
            cases hg
            obtain ⟨hchain, htlmem, hcount⟩ := genLoop_ok_props levels _ _ _ hgl
            obtain ⟨hnames, _, hdec, _⟩ := scanLoop_ok_props _ none [] h
            have hr2 : rootsOf levels = [r] := by rw [hr, hrest]
            have hrmem := rootsOf_mem (hr2 ▸ List.mem_cons_self r [])
            have hsub : ∀ x ∈ r :: tl, x ∈ levels := by
              intro x hx
              rcases List.mem_cons.mp hx with rfl | hx
              · exact hrmem.1
              · exact htlmem x hx
            have hnodup : (r :: tl).Nodup := chainDec_nodup hdec
            have hsp := List.subperm_of_subset hnodup hsub
            have hperm : List.Perm (r :: tl) levels :=
              hsp.perm_of_length_le (by omega)
            refine ⟨?_, ?_, ?_, ?_⟩
            · show (rootsOf levels).length = 1
              rw [hr2]
              rfl
            · intro ol hol
              exact hcount ol ((hperm.mem_iff).mpr hol)
            · intro ol hol
              rcases List.mem_cons.mp ((hperm.mem_iff).mpr hol) with rfl | holtl
              · exact Or.inl hrmem.2
              · obtain ⟨pred, hpred, hp1, hp2⟩ :=
                  chain_pred_exists tl r hchain hdec ol holtl
                exact Or.inr ⟨pred, hsub pred hpred, hp1, hp2⟩
            · exact ((hperm.map (·.name)).nodup_iff).mp hnames

theorem genLoop_leaf (levels : List OrgLevel) (v : Bool) (f : Nat)
    (cur : OrgLevel) (hc : childrenOf levels cur = []) :
    genLoop levels v (f + 1) cur = Except.ok [] := by
  unfold genLoop
  rw [hc]

theorem genLoop_step (levels : List OrgLevel) (v : Bool) (f : Nat)
    (cur c : OrgLevel) (hc : childrenOf levels cur = [c]) :
    genLoop levels v (f + 1) cur =
      match genLoop levels v f c with
      | Except.error e => Except.error e
      | Except.ok tl => Except.ok (c :: tl) := by
  conv_lhs => unfold genLoop
  rw [hc]
  simp

theorem genLoop_ok_of_valid (levels : List OrgLevel)
    (hids : (levels.map (·.id)).Nodup)
    (hP2 : ∀ ol ∈ levels, (levels.filter fun x => x.parent == some ol.id).length ≤ 1)
    (hP3 : ∀ ol ∈ levels, ol.parent = none ∨
      ∃ q ∈ levels, ol.parent = some q.id ∧ ol.level < q.level) :
    ∀ fuel cur, cur ∈ levels →
      (levels.filter fun x => decide (x.level < cur.level)).length < fuel →
      ∃ tl, genLoop levels true fuel cur = Except.ok tl ∧
        List.Chain (fun a b => b.parent = some a.id) cur tl ∧
        (∀ x ∈ tl, x ∈ levels) ∧
        List.Chain' (fun a b => b.level < a.level) (cur :: tl) := by
  intro fuel
  induction fuel with
  | zero =>
    intro cur _ h
    omega
  | succ f ih =>
    intro cur hcur hmeas
    cases hc : childrenOf levels cur with
    | nil =>
      exact ⟨[], genLoop_leaf levels true f cur hc, List.Chain.nil,
        by simp, List.chain'_singleton _⟩
    | cons c rest =>
      have hcm := childrenOf_mem (hc ▸ List.mem_cons_self c rest)
      have hlen : (c :: rest).length ≤ 1 := by
        rw [← hc]
        exact hP2 cur hcur
      have hrest : rest = [] := by
        cases rest with
        | nil => rfl
        | cons d t => simp at hlen
      subst hrest
      have hclt : c.level < cur.level := by
        rcases hP3 c hcm.1 with hnone | ⟨q, hq, hcq, hlt⟩
        · rw [hnone] at hcm
          cases hcm.2
        · rw [hcm.2] at hcq
          have hqid : q.id = cur.id := by
            have := Option.some.inj hcq
            omega
          have := nodup_id_inj hids hq hcur hqid
          rw [← this]
          exact hlt
      have hmeas2 : (levels.filter fun x => decide (x.level < c.level)).length < f := by
        have hstep := length_filter_lt_of levels
          (fun x => decide (x.level < c.level))
          (fun x => decide (x.level < cur.level))
          (fun a ha => by
            simp only [decide_eq_true_eq] at ha ⊢
            omega)
          c hcm.1 (by simp [hclt]) (by simp)
        omega
      obtain ⟨tl', hgl, hch, hmem, hdec⟩ := ih c hcm.1 hmeas2
      refine ⟨c :: tl', ?_, List.Chain.cons hcm.2 hch, ?_, ?_⟩
      · rw [genLoop_step levels true f cur c hc, hgl]
      · intro x hx
        rcases List.mem_cons.mp hx with rfl | hx
        · exact hcm.1
        · exact hmem x hx
      · exact List.chain'_cons.mpr ⟨hclt, hdec⟩

theorem genLoop_child_mem (levels : List OrgLevel) :
    ∀ fuel cur tl, genLoop levels true fuel cur = Except.ok tl →
      ∀ q ∈ cur :: tl, ∀ x, childrenOf levels q = [x] → x ∈ cur :: tl := by
  intro fuel
  induction fuel with
  | zero =>
    intro cur tl h
    simp [genLoop] at h
  | succ f ih =>
    intro cur tl h q hq x hqx
    unfold genLoop at h
    cases hc : childrenOf levels cur with
    | nil =>
      rw [hc] at h
      cases h
      rcases List.mem_singleton.mp hq with rfl
      rw [hqx] at hc
      cases hc
    | cons c rest =>
      rw [hc] at h
      replace h : (if true && !rest.isEmpty then
          (Except.error (chars "orglevel has multiple children") :
            Except (List Char) (List OrgLevel))
        else match genLoop levels true f c with
          | Except.error e => Except.error e
          | Except.ok tl => Except.ok (c :: tl)) = Except.ok tl := h
      cases hrest : rest with
      | cons d t =>
        rw [hrest] at h
        simp at h
      | nil =>
        rw [hrest] at h
        simp only [List.isEmpty_nil, Bool.not_true, Bool.and_false,
          Bool.false_eq_true, if_false] at h
        cases hg : genLoop levels true f c with
        | error e => rw [hg] at h; cases h
        | ok tl' =>
          rw [hg] at h
          replace h : Except.ok (c :: tl') = Except.ok tl := h
          cases h
          rcases List.mem_cons.mp hq with rfl | hq2
          · have : c = x := by
              rw [hc, hrest] at hqx
              exact (List.cons.inj hqx).1
            rw [← this]
            exact List.mem_cons_of_mem _ (List.mem_cons_self _ _)
          · have := ih c tl' hg q hq2 x hqx
            exact List.mem_cons_of_mem _ this

theorem chain_covers (levels : List OrgLevel)
    (hids : (levels.map (·.id)).Nodup)
    (hP2 : ∀ ol ∈ levels, (levels.filter fun x => x.parent == some ol.id).length ≤ 1)
    (hP3 : ∀ ol ∈ levels, ol.parent = none ∨
      ∃ q ∈ levels, ol.parent = some q.id ∧ ol.level < q.level)
    (r : OrgLevel) (tl : List OrgLevel)
    (hr : rootsOf levels = [r])
    (hgl : genLoop levels true levels.length r = Except.ok tl) :
    ∀ n x, x ∈ levels →
      (levels.filter fun y => decide (x.level < y.level)).length = n →
      x ∈ r :: tl := by
  intro n
  induction n using Nat.strong_induction_on with
  | _ n ih =>
    intro x hx hn
    rcases hP3 x hx with hnone | ⟨q, hq, hpq, hlt⟩
    · have hxr : x ∈ rootsOf levels :=
        List.mem_filter.mpr ⟨hx, by simp [hnone]⟩
      rw [hr] at hxr
      rcases List.mem_singleton.mp hxr with rfl
      exact List.mem_cons_self _ _
    · have hmlt : (levels.filter fun y => decide (q.level < y.level)).length < n := by
        rw [← hn]
        exact length_filter_lt_of levels _ _
          (fun a ha => by
            simp only [decide_eq_true_eq] at ha ⊢
            omega)
          q hq (by simp [hlt]) (by simp)
      have hqin : q ∈ r :: tl := ih _ hmlt q hq rfl
      have hxc : x ∈ childrenOf levels q :=
        List.mem_filter.mpr ⟨hx, by simp [hpq]⟩
      have hone : childrenOf levels q = [x] :=
        mem_len_le_one_eq hxc (hP2 q hq)
      exact genLoop_child_mem levels levels.length r tl hgl q hqin x hone

theorem scanLoop_ok_of :
    ∀ (l : List OrgLevel) (lastlevel : Option Int) (allnames : List (List Char)),
      List.Chain' (fun a b => b.level < a.level) l →
      (l.map (·.name)).Nodup →
      (∀ x ∈ l, x.name ∉ allnames) →
      (∀ ll x, lastlevel = some ll → l.head? = some x → x.level < ll) →
      scanLoop lastlevel allnames l = Except.ok () := by
  intro l
  induction l with
  | nil =>
    intro lastlevel allnames _ _ _ _
    cases lastlevel with
    | none => rfl
    | some ll => rfl
  | cons ol rest ih =>
    intro lastlevel allnames hdec hnodup hfresh hhead
    have hdecparts := List.chain'_cons'.mp hdec
    have hnparts := List.nodup_cons.mp (by
      rw [List.map_cons] at hnodup
      exact hnodup)
    have hfresh2 : ∀ x ∈ rest, x.name ∉ ol.name :: allnames := by
      intro x hx
      rw [List.mem_cons]
      rintro (hxn | hxn)
      · exact hnparts.1 (by
          rw [← hxn]
          exact List.mem_map.mpr ⟨x, hx, rfl⟩)
      · exact hfresh x (List.mem_cons_of_mem _ hx) hxn
    have hhead2 : ∀ ll x, (some ol.level : Option Int) = some ll →
        rest.head? = some x → x.level < ll := by
      intro ll x hll hx
      cases hll
      exact hdecparts.1 x hx
    have hrec := ih (some ol.level) (ol.name :: allnames)
      hdecparts.2 hnparts.2 hfresh2 hhead2
    unfold scanLoop
    cases lastlevel with
    | none =>
      have hred : (if ol.name ∈ allnames then
          (Except.error (chars "multiple OrganizationLevels with same name") :
            Except (List Char) Unit)
        else scanLoop (some ol.level) (ol.name :: allnames) rest)
          = Except.ok () := by
        rw [if_neg (hfresh ol (List.mem_cons_self _ _))]
        exact hrec
      exact hred
    | some ll =>
      have hlt : ol.level < ll := hhead ll ol rfl rfl
      have hred : (if ll ≤ ol.level then
          (Except.error (chars "parent OrgLevel level is not greater than child") :
            Except (List Char) Unit)
        else if ol.name ∈ allnames then
          Except.error (chars "multiple OrganizationLevels with same name")
        else scanLoop (some ol.level) (ol.name :: allnames) rest)
          = Except.ok () := by
        rw [if_neg (show ¬ ll ≤ ol.level by omega),
          if_neg (hfresh ol (List.mem_cons_self _ _))]
        exact hrec
      exact hred

theorem validate_step (levels : List OrgLevel) (hier : List OrgLevel)
    (hne : ¬ levels.length = 0)
    (hg : generate_orglevel_hierarchy_list levels true = Except.ok hier) :
    validate_orglevel_hierarchy levels =
      if levels.length ≠ hier.length then
        Except.error (chars "hierarchy size disagrees with total number")
      else scanLoop none [] hier := by
  unfold validate_orglevel_hierarchy
  rw [if_neg hne, hg]

theorem validate_ok_backward (levels : List OrgLevel)
    (hids : (levels.map (·.id)).Nodup) (hP : validOrglevelChain levels) :
    validate_orglevel_hierarchy levels = Except.ok () := by
  obtain ⟨hP1, hP2, hP3, hP4⟩ := hP
  have hr : ∃ r, rootsOf levels = [r] := List.length_eq_one.mp hP1
  obtain ⟨r, hr⟩ := hr
  have hrmem := rootsOf_mem (hr ▸ List.mem_cons_self r [])
  have hne : levels ≠ [] := by
    intro h
    subst h
    cases hrmem.1
  have hmeas : (levels.filter fun x => decide (x.level < r.level)).length
      < levels.length :=
    length_filter_lt_of_mem_not levels _ r hrmem.1 (by simp)
  obtain ⟨tl, hgl, hchain, hmem, hdec⟩ :=
    genLoop_ok_of_valid levels hids hP2 hP3 levels.length r hrmem.1 hmeas
  have hgen : generate_orglevel_hierarchy_list levels true
      = Except.ok (r :: tl) := by
    unfold generate_orglevel_hierarchy_list
    rw [hr]
    simp only [List.isEmpty_nil, Bool.not_true, Bool.and_false,
      Bool.false_eq_true, if_false]
    rw [hgl]
  have hcover : ∀ x ∈ levels, x ∈ r :: tl := by
    intro x hx
    exact chain_covers levels hids hP2 hP3 r tl hr hgl _ x hx rfl
  have hsub : ∀ x ∈ r :: tl, x ∈ levels := by
    intro x hx
    rcases List.mem_cons.mp hx with rfl | hx
    · exact hrmem.1
    · exact hmem x hx
  have hnodup : (r :: tl).Nodup := chainDec_nodup hdec
  have hlevnodup : levels.Nodup := hids.of_map
  have hperm : List.Perm (r :: tl) levels :=
    (List.subperm_of_subset hnodup hsub).antisymm
      (List.subperm_of_subset hlevnodup hcover)
  have hlen : levels.length = (r :: tl).length := hperm.length_eq.symm
  rw [validate_step levels (r :: tl)
    (fun h0 => hne (List.length_eq_zero.mp h0)) hgen]
  rw [if_neg (by omega)]
  refine scanLoop_ok_of (r :: tl) none [] hdec ?_ (by simp) ?_
  · exact ((hperm.map (·.name)).nodup_iff).mpr hP4
  · intro ll x h
    cases h

/-- C1: validate_orglevel_hierarchy raises exactly when the stored
OrganizationLevels are non-empty and fail to form a single chain
(exactly one parentless root, at most one child per level, every level
on the chain with levels strictly decreasing from root to leaf, unique
names); equivalently, it succeeds exactly when the table is empty or the
chain property holds. -/
theorem C1_validate_orglevel_hierarchy (levels : List OrgLevel)
    (hids : (levels.map (·.id)).Nodup) :
    validate_orglevel_hierarchy levels = Except.ok () ↔
      (levels = [] ∨ validOrglevelChain levels) := by
  constructor
  · intro h
    by_cases hne : levels = []
    · exact Or.inl hne
    · exact Or.inr (validate_ok_forward levels hne h)
  · rintro (rfl | hP)
    · rfl
    · exact validate_ok_backward levels hids hP

/-- Witness for C1 at a concrete database: the sample two-level
hierarchy is valid. -/
theorem C1_validate_orglevel_hierarchy_witness :
    (validate_orglevel_hierarchy sampleLevels = Except.ok () ↔
      (sampleLevels = [] ∨ validOrglevelChain sampleLevels)) ∧
    validate_orglevel_hierarchy sampleLevels = Except.ok () := by
  refine ⟨C1_validate_orglevel_hierarchy sampleLevels (by decide), ?_⟩
  have h := C1_validate_orglevel_hierarchy sampleLevels (by decide)
  refine h.mpr (Or.inr ?_)
  refine ⟨by decide, by decide, by decide, by decide⟩

/-- Django `Model.delete` for an OrganizationLevel row under the
on_delete=PROTECT rules of the schema: deletion raises ProtectedError
while any OrganizationLevel row still names the invocant as parent or
any Organization row references it as organization_level; otherwise the
row is removed. -/
def orglevelDelete (levels : List OrgLevel) (orgs : List Org)
    (s : OrgLevel) : Except (List Char) (List OrgLevel) :=
  if (levels.any fun x => x.parent == some s.id)
      || (orgs.any fun o => o.organization_level == some s.id) then
    Except.error (chars "ProtectedError")
  else
    Except.ok (levels.filter fun x => x.id != s.id)

/-- Source: `OrganizationLevel.delete_organization_level`.  Returns the
new OrganizationLevel table on success.  In the branch for a level with
both parent and child, the source assigns `child.parent = self.parent`
on the in-memory instance but never calls `child.save()` (unlike the
root branch, which does), so the database row of the child still points
at the invocant when `self.delete()` runs. -/
def delete_organization_level (levels : List OrgLevel) (orgs : List Org)
    (s : OrgLevel) : Except (List Char) (List OrgLevel) :=
  let referring := orgs.filter fun o => o.organization_level == some s.id
  if !referring.isEmpty then
    Except.error (chars "ValidationError: organizations refer to orglevel")
  else
    match s.parent with
    | some _ =>
      match childrenOf levels s with
      | _child :: _ => orglevelDelete levels orgs s
      | [] => orglevelDelete levels orgs s
    | none =>
      match childrenOf levels s with
      | child :: _ =>
        orglevelDelete
          (levels.map fun x =>
            if x.id == child.id then { x with parent := none } else x)
          orgs s
      | [] => orglevelDelete levels orgs s

/-- Three-tier OrganizationLevel hierarchy used for the C2 failing
input. -/
def threeLevels : List OrgLevel :=
  [{ id := 1, name := chars "University", level := 40, parent := none,
     export_to_xdmod := true },
   { id := 2, name := chars "College", level := 30, parent := some 1,
     export_to_xdmod := true },
   { id := 3, name := chars "Department", level := 20, parent := some 2,
     export_to_xdmod := true }]

/-- The middle tier of `threeLevels`. -/
def threeB : OrgLevel :=
  { id := 2, name := chars "College", level := 30, parent := some 1,
    export_to_xdmod := true }

/-- C2, evaluated at the failing input: the middle OrganizationLevel of
a three-tier hierarchy has both a parent and a child level and is
referenced by no Organization, yet delete_organization_level fails with
ProtectedError instead of deleting it and reparenting the child: the
assignment `child.parent = self.parent` is never saved, so the child row
still references the invocant when the protected delete runs. -/
theorem C2_delete_organization_level_bug :
    threeB.parent = some 1 ∧
    childrenOf threeLevels threeB ≠ [] ∧
    (∀ o ∈ ([] : List Org), o.organization_level ≠ some threeB.id) ∧
    delete_organization_level threeLevels [] threeB =
      Except.error (chars "ProtectedError") := by
  refine ⟨by decide, by decide, by decide, ?_⟩
  rfl

/-- The database state threaded through the stateful operations: the
three tables, the next auto primary keys, the cached top-level Unknown
Organization instance, and the two per-class disable_validation_checks
flags. -/
structure DB where
  levels : List OrgLevel
  orgs : List Org
  d2o : List Dir2Org
  nextLevelId : Nat
  nextOrgId : Nat
  cachedUnknown : Option Org
  olDisable : Bool
  orgDisable : Bool
  deriving DecidableEq

/-- Source: `OrganizationLevel.clean`.  With a parent, the parent must
exist and have a strictly higher level; without one, no other row may
have a higher level and no other parentless row may exist.  `rows` is
the table as the validation sees it (for an update it includes the old
row, as in Django). -/
def orglevelClean (rows : List OrgLevel) (disabled : Bool) (ol : OrgLevel) :
    Except (List Char) Unit :=
  if disabled then Except.ok () else
  match ol.parent with
  | some pid =>
    match findLevel rows pid with
    | none => Except.error (chars "parent OrganizationLevel does not exist")
    | some p =>
      if p.level ≤ ol.level then
        Except.error (chars "OrganizationLevel has parent with lower level")
      else Except.ok ()
  | none =>
    match rows with
    | [] => Except.ok ()
    | _ =>
      if rows.any fun x => decide (ol.level < x.level) then
        Except.error (chars "OrganizationLevel has no parent, but max level is greater")
      else if !(rows.filter fun x => x.parent == none).isEmpty then
        Except.error (chars "OrganizationLevel has no parent, but others parentless")
      else Except.ok ()

/-- Uniqueness constraints of OrganizationLevel (unique name, unique
level, unique non-null parent), as validate_unique checks them. -/
def orglevelValidateUnique (rows : List OrgLevel) (ol : OrgLevel) :
    Except (List Char) Unit :=
  if rows.any fun x => x.id != ol.id && x.name == ol.name then
    Except.error (chars "OrganizationLevel with this name already exists")
  else if rows.any fun x => x.id != ol.id && x.level == ol.level then
    Except.error (chars "OrganizationLevel with this level already exists")
  else if rows.any fun x =>
      x.id != ol.id && x.parent.isSome && x.parent == ol.parent then
    Except.error (chars "OrganizationLevel with this parent already exists")
  else Except.ok ()

/-- `OrganizationLevel.save` (full_clean then INSERT) for a new row; the
primary key is assigned from the database sequence.  The source always
leaves export_to_xdmod at its default (True) for levels created inside
add_organization_level. -/
def orglevelSaveNew (db : DB) (name : List Char) (level : Int)
    (parent : Option Nat) : Except (List Char) (DB × OrgLevel) :=
  let ol : OrgLevel := { id := db.nextLevelId, name := name, level := level,
                         parent := parent, export_to_xdmod := true }
  if name.isEmpty then Except.error (chars "name: This field cannot be blank")
  else
    match orglevelClean db.levels db.olDisable ol with
    | Except.error e => Except.error e
    | Except.ok () =>
      match orglevelValidateUnique db.levels ol with
      | Except.error e => Except.error e
      | Except.ok () =>
        Except.ok ({ db with
          levels := db.levels ++ [ol]
          nextLevelId := db.nextLevelId + 1 }, ol)

/-- `OrganizationLevel.save` (full_clean then UPDATE) for a modified
row already in the table. -/
def orglevelSaveExisting (db : DB) (ol : OrgLevel) : Except (List Char) DB :=
  if ol.name.isEmpty then Except.error (chars "name: This field cannot be blank")
  else
    match orglevelClean db.levels db.olDisable ol with
    | Except.error e => Except.error e
    | Except.ok () =>
      match orglevelValidateUnique db.levels ol with
      | Except.error e => Except.error e
      | Except.ok () =>
        let newLevels := db.levels.map (fun x => if x.id == ol.id then ol else x)
        Except.ok { db with levels := newLevels }

/-- Field-level validation of Organization (`clean_fields`): the
organization_level FK is non-null, the code contains no hyphen
(RegexValidator) and the character fields are not blank. -/
def orgCleanFields (o : Org) : Except (List Char) Unit :=
  if o.organization_level = none then
    Except.error (chars "organization_level: This field cannot be null")
  else if o.code.any (fun c => c == '-') then
    Except.error (chars "Code field may not contain hyphen")
  else if o.code.isEmpty || o.shortname.isEmpty || o.longname.isEmpty then
    Except.error (chars "This field cannot be blank")
  else Except.ok ()

/-- Uniqueness constraints of Organization: code, shortname and
longname are each unique under one parent (and among the parentless
when parent is null). -/
def orgValidateUnique (orgs : List Org) (o : Org) : Except (List Char) Unit :=
  if orgs.any fun x => x.id != o.id && x.parent == o.parent && x.code == o.code then
    Except.error (chars "Organization with this code and parent already exists")
  else if orgs.any fun x =>
      x.id != o.id && x.parent == o.parent && x.shortname == o.shortname then
    Except.error (chars "Organization with this shortname and parent already exists")
  else if orgs.any fun x =>
      x.id != o.id && x.parent == o.parent && x.longname == o.longname then
    Except.error (chars "Organization with this longname and parent already exists")
  else Except.ok ()

/-- `Organization.full_clean`: field validation, the custom clean, then
the uniqueness constraints. -/
def orgFullClean (db : DB) (o : Org) : Except (List Char) Unit :=
  match orgCleanFields o with
  | Except.error e => Except.error e
  | Except.ok () =>
    match organizationClean db.levels db.orgs db.orgDisable o with
    | Except.error e => Except.error e
    | Except.ok () => orgValidateUnique db.orgs o

/-- The in-memory Organization instance built by `Organization(...)`,
with the primary key the INSERT will assign. -/
def mkOrg (db : DB) (parent : Option Nat) (organization_level : Option Nat)
    (code shortname longname : List Char) : Org :=
  { id := db.nextOrgId, parent := parent,
    organization_level := organization_level,
    code := code, shortname := shortname, longname := longname,
    is_selectable_for_user := true,
    is_selectable_for_project := true }

/-- `Organization.save` (full_clean then INSERT) for a new row. -/
def orgSaveNew (db : DB) (parent : Option Nat)
    (organization_level : Option Nat) (code shortname longname : List Char) :
    Except (List Char) (DB × Org) :=
  match orgFullClean db (mkOrg db parent organization_level code shortname longname) with
  | Except.error e => Except.error e
  | Except.ok () =>
    Except.ok ({ db with
      orgs := db.orgs ++ [mkOrg db parent organization_level code shortname longname]
      nextOrgId := db.nextOrgId + 1 },
      mkOrg db parent organization_level code shortname longname)

/-- Replace the table row with the primary key of `o` by `o`. -/
def replaceOrg (orgs : List Org) (o : Org) : List Org :=
  orgs.map (fun x => if x.id == o.id then o else x)

/-- `Organization.save` (full_clean then UPDATE) for a modified row
already in the table. -/
def orgSaveExisting (db : DB) (o : Org) : Except (List Char) DB :=
  match orgFullClean db o with
  | Except.error e => Except.error e
  | Except.ok () => Except.ok { db with orgs := replaceOrg db.orgs o }

/-- Source: `OrganizationLevel.root_organization_level`. -/
def root_organization_level (levels : List OrgLevel) : Option OrgLevel :=
  (rootsOf levels).head?

/-- Source: `OrganizationLevel.child_organization_level`. -/
def child_organization_level (levels : List OrgLevel) (ol : OrgLevel) :
    Option OrgLevel :=
  (childrenOf levels ol).head?

/-- The queryset code='Unknown' and organization_level__parent__isnull
used by get_or_create_unknown_root (the SQL join drops rows whose
organization_level does not resolve). -/
def unknownRootFilter (db : DB) : List Org :=
  db.orgs.filter fun o =>
    o.code == chars "Unknown" &&
      (match o.organization_level with
       | none => false
       | some i =>
         match findLevel db.levels i with
         | none => false
         | some ol => ol.parent == none)

/-- Source: `Organization.get_or_create_unknown_root` with dryrun
False: the cached instance if set, else the first matching row (cached),
else a freshly created parentless Unknown organization at the root
level. -/
def get_or_create_unknown_root (db : DB) : Except (List Char) (DB × Org) :=
  match db.cachedUnknown with
  | some o => Except.ok (db, o)
  | none =>
    match (unknownRootFilter db).head? with
    | some o => Except.ok ({ db with cachedUnknown := some o }, o)
    | none =>
      match root_organization_level db.levels with
      | none => Except.error (chars "No parentless OrganizationLevel found")
      | some orglevel =>
        let un := generate_unique_organization_names db.orgs
          (chars "Unknown") (chars "Unknown")
          (chars "Container for Unknown organizations") none
        match orgSaveNew db none (some orglevel.id)
            un.ucode un.ushortname un.ulongname with
        | Except.error e => Except.error e
        | Except.ok (db2, newo) =>
          Except.ok ({ db2 with cachedUnknown := some newo }, newo)

/-- The loop of the root branch of add_organization_level: make the new
root Unknown organization the parent of every previously root-level
Organization. -/
def reparentAll (db : DB) (newParent : Nat) : List Nat → Except (List Char) DB
  | [] => Except.ok db
  | i :: rest =>
    match findOrg db.orgs i with
    | none => Except.error (chars "Organization matching query does not exist")
    | some o =>
      match orgSaveExisting db { o with parent := some newParent } with
      | Except.error e => Except.error e
      | Except.ok db2 => reparentAll db2 newParent rest

/-- The loop of the middle branch of add_organization_level: for each
Organization at the child level, create a placeholder Organization with
the generated unique names and the old parent, then reparent the
Organization under the placeholder.  As in the source, the placeholder
is constructed without an organization_level. -/
def placeholderLoop (db : DB) : List Nat → Except (List Char) DB
  | [] => Except.ok db
  | i :: rest =>
    match findOrg db.orgs i with
    | none => Except.error (chars "Organization matching query does not exist")
    | some org =>
      let un := generate_unique_organization_names db.orgs
        (chars "placeholder" ++ org.code) (chars "placeholder" ++ org.shortname)
        (chars "placeholder" ++ org.longname) org.parent
      match orgSaveNew db org.parent none un.ucode un.ushortname un.ulongname with
      | Except.error e => Except.error e
      | Except.ok (db2, neworg) =>
        match orgSaveExisting db2 { org with parent := some neworg.id } with
        | Except.error e => Except.error e
        | Except.ok db3 => placeholderLoop db3 rest

/-- Source: `OrganizationLevel.add_organization_level`. -/
def add_organization_level (db : DB) (name : List Char) (level : Int)
    (parent : Option OrgLevel) : Except (List Char) (DB × OrgLevel) :=
  match parent with
  | none =>
    match root_organization_level db.levels with
    | some root =>
      if ¬ (root.level < level) then
        Except.error (chars "new root orglevel level is less than existing root")
      else
        let db1 := { db with olDisable := true }
        match orglevelSaveNew db1 name level none with
        | Except.error e => Except.error e
        | Except.ok (db2, newroot) =>
          match orglevelSaveExisting db2 { root with parent := some newroot.id } with
          | Except.error e => Except.error e
          | Except.ok db3 =>
            let db4 := { db3 with
              olDisable := false
              cachedUnknown := none }
            let rootOrgs := db4.orgs.filter fun o =>
              o.organization_level == some root.id
            if rootOrgs.isEmpty then Except.ok (db4, newroot)
            else
              match get_or_create_unknown_root db4 with
              | Except.error e => Except.error e
              | Except.ok (db5, rootorg) =>
                match reparentAll db5 rootorg.id (rootOrgs.map (·.id)) with
                | Except.error e => Except.error e
                | Except.ok db6 => Except.ok (db6, newroot)
    | none =>
      match orglevelSaveNew db name level none with
      | Except.error e => Except.error e
      | Except.ok (db2, newroot) => Except.ok (db2, newroot)
  | some parent =>
    if ¬ (level < parent.level) then
      Except.error (chars "new orglevel level is more than parent")
    else
      match childrenOf db.levels parent with
      | child :: _ =>
        if ¬ (child.level < level) then
          Except.error (chars "new orglevel level is less than child")
        else
          let db1 := { db with olDisable := true }
          match orglevelSaveNew db1 name level none with
          | Except.error e => Except.error e
          | Except.ok (db2, newolev) =>
            match orglevelSaveExisting db2 { child with parent := some newolev.id } with
            | Except.error e => Except.error e
            | Except.ok db3 =>
              match orglevelSaveExisting db3 { newolev with parent := some parent.id } with
              | Except.error e => Except.error e
              | Except.ok db4 =>
                let db5 := { db4 with olDisable := false }
                let childOrgs := db5.orgs.filter fun o =>
                  o.organization_level == some child.id
                match placeholderLoop db5 (childOrgs.map (·.id)) with
                | Except.error e => Except.error e
                | Except.ok db6 => Except.ok (db6, newolev)
      | [] =>
        match orglevelSaveNew db name level (some parent.id) with
        | Except.error e => Except.error e
        | Except.ok (db2, newolev) => Except.ok (db2, newolev)

/-- OrganizationLevel University for the C3 failing input. -/
def c3U : OrgLevel :=
  { id := 1, name := chars "University", level := 40, parent := none,
    export_to_xdmod := true }

/-- Database for the C3 failing input: levels University(40) ->
Department(20), a root organization UMD and a department organization CS
under it. -/
def c3db : DB :=
  { levels := [c3U,
      { id := 2, name := chars "Department", level := 20, parent := some 1,
        export_to_xdmod := true }],
    orgs := [{ id := 1, parent := none, organization_level := some 1,
               code := chars "UMD", shortname := chars "UMD",
               longname := chars "UMD", is_selectable_for_user := true,
               is_selectable_for_project := true },
             { id := 2, parent := some 1, organization_level := some 2,
               code := chars "CS", shortname := chars "CS",
               longname := chars "CS", is_selectable_for_user := true,
               is_selectable_for_project := true }],
    d2o := [], nextLevelId := 3, nextOrgId := 3, cachedUnknown := none,
    olDisable := false, orgDisable := false }

/-- C3, evaluated at the failing input: inserting a College level (30)
between University (40) and Department (20) satisfies
parent.level > level > child.level and there is an Organization at the
child level, yet add_organization_level raises instead of creating a
placeholder Organization at the new level: the placeholder is
constructed without an organization_level (a non-null field), so saving
it fails validation. -/
theorem C3_add_organization_level_bug :
    c3U.level = 40 ∧
    (childrenOf c3db.levels c3U).map (·.level) = [20] ∧
    (c3db.orgs.filter fun o => o.organization_level == some 2) ≠ [] ∧
    add_organization_level c3db (chars "College") 30 (some c3U) =
      Except.error (chars "organization_level: This field cannot be null") := by
  refine ⟨by decide, by decide, by decide, ?_⟩
  rfl

/-- Whether the first list is an initial segment of the second. -/
def listStartsWith : List Char → List Char → Bool
  | [], _ => true
  | _ :: _, [] => false
  | a :: pre, b :: s => a == b && listStartsWith pre s

theorem listStartsWith_iff :
    ∀ (pre s : List Char), listStartsWith pre s = true ↔ ∃ t, s = pre ++ t := by
  intro pre
  induction pre with
  | nil =>
    intro s
    simp [listStartsWith]
  | cons a pre2 ih =>
    intro s
    cases s with
    | nil =>
      simp [listStartsWith]
    | cons b s2 =>
      rw [listStartsWith]
      rw [Bool.and_eq_true, beq_iff_eq, ih s2]
      constructor
      · rintro ⟨rfl, t, rfl⟩
        exact ⟨t, rfl⟩
      · rintro ⟨t, ht⟩
        rw [List.cons_append] at ht
        cases ht
        exact ⟨rfl, t, rfl⟩

theorem find?_append_some {α : Type} {p : α → Bool} {l1 : List α} {a : α}
    (h : l1.find? p = some a) (l2 : List α) : (l1 ++ l2).find? p = some a := by
  induction l1 with
  | nil => simp [List.find?] at h
  | cons x t ih =>
    rw [List.find?_cons] at h
    show List.find? p (x :: (t ++ l2)) = some a
    rw [List.find?_cons]
    by_cases hx : p x
    · simp only [hx] at h ⊢
      exact h
    · have hx2 : p x = false := by simpa using hx
      simp only [hx2] at h ⊢
      exact ih h

/-- The Directory2Organization lookup for one directory string: the
first row with that string, foreign-key resolved. -/
def d2oLookup (db : DB) (s : List Char) : Option Org :=
  match (db.d2o.filter fun e => e.directory_string == s).head? with
  | none => none
  | some e => findOrg db.orgs e.organization

/-- Source: `Organization.create_unknown_object_for_dir_string` with
dryrun False: find or create the top-level Unknown organization, create
a placeholder under it at the level below the root (as generated by the
unique-name helper), rename the placeholder to Unknown_<pk>, and create
the Directory2Organization row for the string. -/
def create_unknown_object_for_dir_string (db : DB) (dirstring : List Char) :
    Except (List Char) (DB × Org) :=
  match get_or_create_unknown_root db with
  | Except.error e => Except.error e
  | Except.ok (db1, unknown_root) =>
    match unknown_root.organization_level with
    | none => Except.error (chars "RelatedObjectDoesNotExist")
    | some rolid =>
      match findLevel db1.levels rolid with
      | none => Except.error (chars "OrganizationLevel matching query does not exist")
      | some rol =>
        let orglevel := child_organization_level db1.levels rol
        let un := generate_unique_organization_names db1.orgs
          (chars "Unknown_placeholder")
          (chars "Unknown: " ++ dirstring)
          (chars "Unknown: " ++ dirstring)
          (some unknown_root.id)
        match orgSaveNew db1 (some unknown_root.id) (orglevel.map (·.id))
            un.ucode un.ushortname un.ulongname with
        | Except.error e => Except.error e
        | Except.ok (db2, placeholder) =>
          let p2 := { placeholder with
            code := chars "Unknown_" ++ natToStr placeholder.id }
          match orgSaveExisting db2 p2 with
          | Except.error e => Except.error e
          | Except.ok db3 =>
            if db3.d2o.any fun e => e.directory_string == dirstring then
              Except.error (chars "directory_string already exists")
            else
              Except.ok ({ db3 with d2o := db3.d2o ++
                [{ organization := p2.id, directory_string := dirstring }] }, p2)

/-- The loop of `convert_strings_to_orgs`: fold over the strings,
accumulating the set of resolved Organizations in insertion order. -/
def convertLoop (createUndefined : Bool) :
    DB → List (List Char) → List Org → Except (List Char) (DB × List Org)
  | db, [], tmporgs => Except.ok (db, tmporgs)
  | db, s :: rest, tmporgs =>
    match (db.d2o.filter fun e => e.directory_string == s).head? with
    | some entry =>
      match findOrg db.orgs entry.organization with
      | none => Except.error (chars "Organization matching query does not exist")
      | some org =>
        convertLoop createUndefined db rest
          (if org ∈ tmporgs then tmporgs else tmporgs ++ [org])
    | none =>
      if createUndefined then
        match create_unknown_object_for_dir_string db s with
        | Except.error e => Except.error e
        | Except.ok (db2, placeholder) =>
          convertLoop createUndefined db2 rest
            (if placeholder ∈ tmporgs then tmporgs else tmporgs ++ [placeholder])
      else
        convertLoop createUndefined db rest tmporgs

/-- Source: `Organization.convert_strings_to_orgs` (dryrun False). -/
def convert_strings_to_orgs (db : DB) (strings : List (List Char))
    (createUndefined : Bool) : Except (List Char) (DB × List Org) :=
  convertLoop createUndefined db strings []

/-- Well-formedness of the database, as the schema and the model
invariants guarantee: a two-or-more-tier valid level hierarchy with root
`rl` and second level `cl`, unique organization primary keys below the
sequence value, organization codes of the reserved shape Unknown_<n>
only for already-assigned primary keys, parentless organizations at the
root level, directory rows resolving to organizations, and a coherent
cached Unknown root. -/
def C7WF (db : DB) (rl cl : OrgLevel) : Prop :=
  rootsOf db.levels = [rl] ∧
  childrenOf db.levels rl = [cl] ∧
  cl.level < rl.level ∧
  findLevel db.levels rl.id = some rl ∧
  findLevel db.levels cl.id = some cl ∧
  (db.orgs.map (·.id)).Nodup ∧
  (∀ o ∈ db.orgs, o.id < db.nextOrgId) ∧
  (∀ o ∈ db.orgs, listStartsWith (chars "Unknown_") o.code = true →
    ∃ k, k < db.nextOrgId ∧ o.code = chars "Unknown_" ++ natToStr k) ∧
  (∀ o ∈ db.orgs, o.parent = none → o.organization_level = some rl.id) ∧
  (∀ e ∈ db.d2o, ∃ o ∈ db.orgs, o.id = e.organization) ∧
  (match db.cachedUnknown with
   | none => True
   | some o => o ∈ db.orgs ∧ o.code = chars "Unknown" ∧
       o.organization_level = some rl.id)

/-- How one step of the conversion extends the database: same levels,
organizations and directory rows only appended (new organizations with
fresh primary keys), sequence value nondecreasing. -/
def DBExt (db db' : DB) : Prop :=
  db'.levels = db.levels ∧
  (∃ new, db'.orgs = db.orgs ++ new ∧ ∀ x ∈ new, db.nextOrgId ≤ x.id) ∧
  (∃ newd, db'.d2o = db.d2o ++ newd) ∧
  db.nextOrgId ≤ db'.nextOrgId

theorem DBExt_refl (db : DB) : DBExt db db :=
  ⟨rfl, ⟨[], by simp, by simp⟩, ⟨[], by simp⟩, Nat.le_refl _⟩

theorem DBExt_trans {db1 db2 db3 : DB} (h1 : DBExt db1 db2)
    (h2 : DBExt db2 db3) : DBExt db1 db3 := by
  obtain ⟨hl1, ⟨n1, ho1, hn1⟩, ⟨d1, hd1⟩, hx1⟩ := h1
  obtain ⟨hl2, ⟨n2, ho2, hn2⟩, ⟨d2, hd2⟩, hx2⟩ := h2
  refine ⟨by rw [hl2, hl1], ⟨n1 ++ n2, ?_, ?_⟩, ⟨d1 ++ d2, ?_⟩, by omega⟩
  · rw [ho2, ho1, List.append_assoc]
  · intro x hx
    rcases List.mem_append.mp hx with hx | hx
    · exact hn1 x hx
    · exact le_trans hx1 (hn2 x hx)
  · rw [hd2, hd1, List.append_assoc]

theorem d2oLookup_mono {db db' : DB} {s : List Char} {o : Org}
    (hres : ∀ e ∈ db.d2o, ∃ x ∈ db.orgs, x.id = e.organization)
    (hext : DBExt db db') (h : d2oLookup db s = some o) :
    d2oLookup db' s = some o := by
  obtain ⟨_, ⟨new, ho, _⟩, ⟨newd, hd⟩, _⟩ := hext
  unfold d2oLookup at h ⊢
  cases hh : (db.d2o.filter fun e => e.directory_string == s).head? with
  | none => rw [hh] at h; cases h
  | some e =>
    rw [hh] at h
    have hne : (db.d2o.filter fun e => e.directory_string == s) ≠ [] := by
      intro hnil
      rw [hnil] at hh
      cases hh
    rw [hd, List.filter_append, List.head?_append_of_ne_nil _ hne, hh]
    rw [ho]
    exact find?_append_some h new

theorem d2oLookup_none_iff {db : DB} {s : List Char}
    (hres : ∀ e ∈ db.d2o, ∃ x ∈ db.orgs, x.id = e.organization) :
    d2oLookup db s = none ↔
      (db.d2o.filter fun e => e.directory_string == s) = [] := by
  unfold d2oLookup
  cases hh : (db.d2o.filter fun e => e.directory_string == s).head? with
  | none =>
    simp only [true_iff]
    cases hf : db.d2o.filter fun e => e.directory_string == s with
    | nil => rfl
    | cons x t =>
      rw [hf] at hh
      cases hh
  | some e =>
    have hmem : e ∈ db.d2o := by
      have : e ∈ db.d2o.filter fun e => e.directory_string == s := by
        cases hf : db.d2o.filter fun e => e.directory_string == s with
        | nil => rw [hf] at hh; cases hh
        | cons x t =>
          rw [hf] at hh
          cases hh
          exact List.mem_cons_self _ _
      exact (List.mem_filter.mp this).1
    obtain ⟨x, hx, hxid⟩ := hres e hmem
    have hfind : ∃ y, findOrg db.orgs e.organization = some y := by
      have : (db.orgs.find? fun y => y.id == e.organization).isSome = true := by
        rw [List.find?_isSome]
        exact ⟨x, hx, by simp [hxid]⟩
      cases hv : db.orgs.find? fun y => y.id == e.organization with
      | none => rw [hv] at this; cases this
      | some y => exact ⟨y, hv⟩
    obtain ⟨y, hy⟩ := hfind
    show findOrg db.orgs e.organization = none ↔ _
    rw [hy]
    constructor
    · intro h
      cases h
    · intro h
      rw [h] at hh
      simp at hh

theorem findLevel_mem {levels : List OrgLevel} {i : Nat} {ol : OrgLevel}
    (h : findLevel levels i = some ol) : ol ∈ levels ∧ ol.id = i := by
  refine ⟨List.mem_of_find?_eq_some h, ?_⟩
  have := List.find?_some h
  simpa using this

theorem digitChar_ne_hyphen : ∀ d < 10, digitChar d ≠ '-' := by
  decide

theorem natToStr_no_hyphen (k : Nat) : ∀ c ∈ natToStr k, c ≠ '-' := by
  intro c hc
  unfold natToStr at hc
  rw [List.mem_map] at hc
  obtain ⟨d, hd, rfl⟩ := hc
  exact digitChar_ne_hyphen d (natDigits_lt_ten k d hd)

theorem orgCleanFields_ok (o : Org)
    (hol : o.organization_level ≠ none)
    (hcode : ∀ c ∈ o.code, c ≠ '-')
    (hc : o.code ≠ []) (hs : o.shortname ≠ []) (hl : o.longname ≠ []) :
    orgCleanFields o = Except.ok () := by
  unfold orgCleanFields
  rw [if_neg hol]
  rw [if_neg (by
    rw [Bool.not_eq_true, List.any_eq_false]
    intro c hcm
    simp only [beq_eq_false_iff_ne, ne_eq, beq_iff_eq]
    exact hcode c hcm)]
  rw [if_neg (by
    rw [Bool.not_eq_true, Bool.or_eq_false_iff, Bool.or_eq_false_iff,
      List.isEmpty_eq_false, List.isEmpty_eq_false, List.isEmpty_eq_false]
    exact ⟨⟨hc, hs⟩, hl⟩)]

theorem organizationClean_ok_root (levels : List OrgLevel) (orgs : List Org)
    (dis : Bool) (o : Org) (rl : OrgLevel)
    (h1 : o.organization_level = some rl.id)
    (h2 : findLevel levels rl.id = some rl)
    (h3 : rl.parent = none) (h4 : o.parent = none) :
    organizationClean levels orgs dis o = Except.ok () := by
  unfold organizationClean
  cases dis with
  | true => rw [if_pos rfl]
  | false =>
    rw [if_neg (by simp)]
    simp only [h1, h2, h3, h4]

theorem organizationClean_ok_child (levels : List OrgLevel) (orgs : List Org)
    (dis : Bool) (o : Org) (rl cl : OrgLevel) (po : Org)
    (h1 : o.organization_level = some cl.id)
    (h2 : findLevel levels cl.id = some cl)
    (h3 : cl.parent = some rl.id)
    (h4 : findLevel levels rl.id = some rl)
    (h5 : o.parent = some po.id)
    (h6 : findOrg orgs po.id = some po)
    (h7 : po.organization_level = some rl.id)
    (h8 : cl.level < rl.level) :
    organizationClean levels orgs dis o = Except.ok () := by
  unfold organizationClean
  cases dis with
  | true => rw [if_pos rfl]
  | false =>
    rw [if_neg (by simp)]
    simp only [h1, h2, h3, h4, h5, h6, h7]
    rw [if_neg (by omega), if_neg (by simp)]

theorem mem_orgChildren {orgs : List Org} {x : Org} {par : Option Nat}
    (hx : x ∈ orgs) (hp : x.parent = par) : x ∈ orgChildren orgs par := by
  unfold orgChildren
  cases par with
  | none => exact List.mem_filter.mpr ⟨hx, by simp [hp]⟩
  | some p => exact List.mem_filter.mpr ⟨hx, by simp [hp]⟩

theorem orgValidateUnique_of_avoid (orgs : List Org) (o : Org)
    (hc : ∀ x ∈ orgs, x.id ≠ o.id → x.parent = o.parent → x.code ≠ o.code)
    (hs : ∀ x ∈ orgs, x.id ≠ o.id → x.parent = o.parent → x.shortname ≠ o.shortname)
    (hl : ∀ x ∈ orgs, x.id ≠ o.id → x.parent = o.parent → x.longname ≠ o.longname) :
    orgValidateUnique orgs o = Except.ok () := by
  unfold orgValidateUnique
  rw [if_neg (by
    rw [Bool.not_eq_true, List.any_eq_false]
    intro x hx
    simp only [Bool.and_eq_true, bne_iff_ne, ne_eq, beq_iff_eq, not_and, and_imp]
    intro hid hpar
    exact hc x hx hid hpar)]
  rw [if_neg (by
    rw [Bool.not_eq_true, List.any_eq_false]
    intro x hx
    simp only [Bool.and_eq_true, bne_iff_ne, ne_eq, beq_iff_eq, not_and, and_imp]
    intro hid hpar
    exact hs x hx hid hpar)]
  rw [if_neg (by
    rw [Bool.not_eq_true, List.any_eq_false]
    intro x hx
    simp only [Bool.and_eq_true, bne_iff_ne, ne_eq, beq_iff_eq, not_and, and_imp]
    intro hid hpar
    exact hl x hx hid hpar)]

theorem avoid_of_not_mem_children {orgs : List Org} {o : Org}
    {f : Org → List Char}
    (h : f o ∉ (orgChildren orgs o.parent).map f) :
    ∀ x ∈ orgs, x.id ≠ o.id → x.parent = o.parent → f x ≠ f o := by
  intro x hx _ hpar hf
  exact h (List.mem_map.mpr ⟨x, mem_orgChildren hx hpar, hf⟩)

theorem findUniqueName_forms (base : List Char) (used : List (List Char)) :
    findUniqueName base used = base ∨
      ∃ k, findUniqueName base used = base ++ natToStr k := by
  obtain ⟨_, _, hbase, hsuf⟩ := findUniqueName_spec base used
  by_cases h : base ∈ used
  · obtain ⟨k, _, hk, _, _⟩ := hsuf h
    exact Or.inr ⟨k, hk⟩
  · exact Or.inl (hbase h)

theorem findUniqueName_no_hyphen (base : List Char) (used : List (List Char))
    (hbase : ∀ c ∈ base, c ≠ '-') :
    ∀ c ∈ findUniqueName base used, c ≠ '-' := by
  rcases findUniqueName_forms base used with h | ⟨k, h⟩ <;> rw [h]
  · exact hbase
  · intro c hc
    rcases List.mem_append.mp hc with hc | hc
    · exact hbase c hc
    · exact natToStr_no_hyphen k c hc

theorem findUniqueName_ne_nil (base : List Char) (used : List (List Char))
    (hbase : base ≠ []) : findUniqueName base used ≠ [] := by
  rcases findUniqueName_forms base used with h | ⟨k, h⟩ <;> rw [h]
  · exact hbase
  · intro hcon
    rw [List.append_eq_nil] at hcon
    exact hbase hcon.1

theorem nodup_append_one {α : Type} {l : List α} {a : α}
    (hl : l.Nodup) (ha : a ∉ l) : (l ++ [a]).Nodup := by
  induction l with
  | nil => simp
  | cons x t ih =>
    rw [List.cons_append, List.nodup_cons]
    rw [List.nodup_cons] at hl
    refine ⟨?_, ih hl.2 (fun h => ha (List.mem_cons_of_mem _ h))⟩
    intro hmem
    rcases List.mem_append.mp hmem with h | h
    · exact hl.1 h
    · rw [List.mem_singleton] at h
      exact ha (h ▸ List.mem_cons_self _ _)

theorem get_or_create_unknown_root_ok (db : DB) (rl cl : OrgLevel)
    (hWF : C7WF db rl cl) :
    ∃ db1 uroot, get_or_create_unknown_root db = Except.ok (db1, uroot) ∧
      C7WF db1 rl cl ∧ DBExt db db1 ∧
      db1.d2o = db.d2o ∧ db1.levels = db.levels ∧
      uroot ∈ db1.orgs ∧ uroot.code = chars "Unknown" ∧
      uroot.organization_level = some rl.id ∧
      db1.cachedUnknown = some uroot := by
  obtain ⟨hroots, hchild, hlev, hfrl, hfcl, hids, hlt, hguard, hparentless,
    hres, hcache⟩ := hWF
  have hrlparent : rl.parent = none :=
    (rootsOf_mem (hroots ▸ List.mem_cons_self rl [])).2
  unfold get_or_create_unknown_root
  cases hcu : db.cachedUnknown with
  | some o =>
    rw [hcu] at hcache
    obtain ⟨homem, hocode, holvl⟩ := hcache
    refine ⟨db, o, rfl, ?_, DBExt_refl db, rfl, rfl, homem, hocode, holvl, hcu⟩
    exact ⟨hroots, hchild, hlev, hfrl, hfcl, hids, hlt, hguard, hparentless,
      hres, by rw [hcu]; exact ⟨homem, hocode, holvl⟩⟩
  | none =>
    cases hflt : (unknownRootFilter db).head? with
    | some o =>
      have homem : o ∈ unknownRootFilter db := by
        cases hf : unknownRootFilter db with
        | nil => rw [hf] at hflt; cases hflt
        | cons x t =>
          rw [hf] at hflt
          cases hflt
          exact List.mem_cons_self _ _
      unfold unknownRootFilter at homem
      rw [List.mem_filter, Bool.and_eq_true] at homem
      obtain ⟨hoorgs, hocode, holvl⟩ := homem
      rw [beq_iff_eq] at hocode
      have holvl2 : o.organization_level = some rl.id := by
        cases hol : o.organization_level with
        | none => rw [hol] at holvl; cases holvl
        | some i =>
          rw [hol] at holvl
          replace holvl : (match findLevel db.levels i with
            | none => false
            | some ol => ol.parent == none) = true := holvl
          cases hfl : findLevel db.levels i with
          | none => rw [hfl] at holvl; cases holvl
          | some ol =>
            simp only [hfl] at holvl
            rw [beq_iff_eq] at holvl
            have hmem := findLevel_mem hfl
            have : ol ∈ rootsOf db.levels :=
              List.mem_filter.mpr ⟨hmem.1, by simp [holvl]⟩
            rw [hroots, List.mem_singleton] at this
            rw [this] at hmem
            rw [hmem.2]
      refine ⟨{ db with cachedUnknown := some o }, o, rfl, ?_, ?_, rfl, rfl,
        hoorgs, hocode, holvl2, rfl⟩
      · exact ⟨hroots, hchild, hlev, hfrl, hfcl, hids, hlt, hguard,
          hparentless, hres, ⟨hoorgs, hocode, holvl2⟩⟩
      · exact ⟨rfl, ⟨[], by simp, by simp⟩, ⟨[], by simp⟩, Nat.le_refl _⟩
    | none =>
      have hfilter_nil : unknownRootFilter db = [] := by
        cases hf : unknownRootFilter db with
        | nil => rfl
        | cons x t =>
          rw [hf] at hflt
          cases hflt
      have hroot : root_organization_level db.levels = some rl := by
        unfold root_organization_level
        rw [hroots]
        rfl
      rw [hroot]
      -- the Unknown code base is unused among parentless organizations
      have hunused : chars "Unknown" ∉
          (orgChildren db.orgs none).map (·.code) := by
        intro hmem
        rw [List.mem_map] at hmem
        obtain ⟨x, hx, hxcode⟩ := hmem
        unfold orgChildren at hx
        rw [List.mem_filter] at hx
        have hxpar : x.parent = none := by
          have := hx.2
          simpa using this
        have hxlvl := hparentless x hx.1 hxpar
        have : x ∈ unknownRootFilter db := by
          unfold unknownRootFilter
          rw [List.mem_filter]
          refine ⟨hx.1, ?_⟩
          rw [Bool.and_eq_true, beq_iff_eq]
          refine ⟨hxcode, ?_⟩
          rw [hxlvl]
          show (match findLevel db.levels rl.id with
            | none => false
            | some ol => ol.parent == none) = true
          rw [hfrl]
          simp [hrlparent]
        rw [hfilter_nil] at this
        cases this
      obtain ⟨hucode_pre, hucode_notin, hucode_base, _⟩ :=
        findUniqueName_spec (chars "Unknown")
          ((orgChildren db.orgs none).map (·.code))
      obtain ⟨husn_pre, husn_notin, _, _⟩ :=
        findUniqueName_spec (chars "Unknown")
          ((orgChildren db.orgs none).map (·.shortname))
      obtain ⟨huln_pre, huln_notin, _, _⟩ :=
        findUniqueName_spec (chars "Container for Unknown organizations")
          ((orgChildren db.orgs none).map (·.longname))
      have hcode_eq : findUniqueName (chars "Unknown")
          ((orgChildren db.orgs none).map (·.code)) = chars "Unknown" :=
        hucode_base hunused
      -- the insert of the fresh Unknown root succeeds
      have hsave : ∃ db2 newo,
          orgSaveNew db none (some rl.id)
            (findUniqueName (chars "Unknown")
              ((orgChildren db.orgs none).map (·.code)))
            (findUniqueName (chars "Unknown")
              ((orgChildren db.orgs none).map (·.shortname)))
            (findUniqueName (chars "Container for Unknown organizations")
              ((orgChildren db.orgs none).map (·.longname)))
            = Except.ok (db2, newo) ∧
          db2.orgs = db.orgs ++ [newo] ∧ db2.d2o = db.d2o ∧
          db2.levels = db.levels ∧ db2.nextOrgId = db.nextOrgId + 1 ∧
          db2.cachedUnknown = db.cachedUnknown ∧
          newo.id = db.nextOrgId ∧ newo.parent = none ∧
          newo.organization_level = some rl.id ∧
          newo.code = chars "Unknown" := by
        unfold orgSaveNew orgFullClean
        rw [orgCleanFields_ok _ (by simp [mkOrg]) ?hcode ?hne ?hsn ?hln]
        case hcode =>
          simp only [mkOrg]
          rw [hcode_eq]
          decide
        case hne =>
          simp only [mkOrg]
          rw [hcode_eq]
          decide
        case hsn =>
          simp only [mkOrg]
          exact findUniqueName_ne_nil _ _ (by decide)
        case hln =>
          simp only [mkOrg]
          exact findUniqueName_ne_nil _ _ (by decide)
        rw [organizationClean_ok_root db.levels db.orgs db.orgDisable _ rl
          rfl hfrl hrlparent rfl]
        rw [orgValidateUnique_of_avoid _ _
          (avoid_of_not_mem_children (by rw [hcode_eq] at hucode_notin ⊢; exact hucode_notin))
          (avoid_of_not_mem_children husn_notin)
          (avoid_of_not_mem_children huln_notin)]
        exact ⟨_, _, rfl, rfl, rfl, rfl, rfl, rfl, rfl, rfl, rfl, hcode_eq⟩
      obtain ⟨db2, newo, hsv, ho2, hd2, hl2, hn2, hc2, hnid, hnpar, hnlvl,
        hncode⟩ := hsave
      simp only [generate_unique_organization_names]
      rw [hsv]
      refine ⟨{ db2 with cachedUnknown := some newo }, newo, rfl, ?_, ?_, ?_,
        ?_, ?_, hncode, hnlvl, rfl⟩
      · refine ⟨by rw [hl2]; exact hroots, by rw [hl2]; exact hchild, hlev,
          by rw [hl2]; exact hfrl, by rw [hl2]; exact hfcl, ?_, ?_, ?_, ?_, ?_, ?_⟩
        · show ((db2.orgs).map (·.id)).Nodup
          rw [ho2, List.map_append]
          refine nodup_append_one hids ?_
          intro hmem
          rw [List.mem_map] at hmem
          obtain ⟨x, hx, hxid⟩ := hmem
          have hxlt := hlt x hx
          have hxeq : x.id = newo.id := hxid
          omega
        · intro o ho
          rw [ho2] at ho
          rw [hn2]
          rcases List.mem_append.mp ho with ho | ho
          · have := hlt o ho
            omega
          · rw [List.mem_singleton] at ho
            rw [ho, hnid]
            omega
        · intro o ho hpre
          rw [ho2] at ho
          rw [hn2]
          rcases List.mem_append.mp ho with ho | ho
          · obtain ⟨k, hk, hkeq⟩ := hguard o ho hpre
            exact ⟨k, by omega, hkeq⟩
          · rw [List.mem_singleton] at ho
            rw [ho, hncode] at hpre
            exact absurd hpre (by decide)
        · intro o ho hpar
          rw [ho2] at ho
          rcases List.mem_append.mp ho with ho | ho
          · exact hparentless o ho hpar
          · rw [List.mem_singleton] at ho
            rw [ho, hnlvl]
        · intro e he
          rw [hd2] at he
          obtain ⟨o, ho, hid⟩ := hres e he
          exact ⟨o, by rw [ho2]; exact List.mem_append.mpr (Or.inl ho), hid⟩
        · show (match (some newo : Option Org) with
            | none => True
            | some o => o ∈ db2.orgs ∧ o.code = chars "Unknown" ∧
                o.organization_level = some rl.id)
          refine ⟨?_, hncode, hnlvl⟩
          rw [ho2]
          exact List.mem_append.mpr (Or.inr (List.mem_singleton.mpr rfl))
      · refine ⟨(by rw [hl2]), ⟨[newo], (by rw [ho2]), ?_⟩,
          ⟨[], (by rw [hd2, List.append_nil])⟩,
          (by show db.nextOrgId ≤ db2.nextOrgId; omega)⟩
        intro x hx
        rw [List.mem_singleton] at hx
        rw [hx, hnid]
      · exact hd2
      · exact hl2
      · rw [ho2]
        exact List.mem_append.mpr (Or.inr (List.mem_singleton.mpr rfl))

theorem C7WF_res {db : DB} {rl cl : OrgLevel} (h : C7WF db rl cl) :
    ∀ e ∈ db.d2o, ∃ o ∈ db.orgs, o.id = e.organization :=
  h.2.2.2.2.2.2.2.2.2.1

theorem C7WF_ids {db : DB} {rl cl : OrgLevel} (h : C7WF db rl cl) :
    (db.orgs.map (·.id)).Nodup :=
  h.2.2.2.2.2.1

theorem map_replace_fresh (orgs : List Org) (p2 : Org)
    (hfresh : ∀ x ∈ orgs, x.id ≠ p2.id) :
    orgs.map (fun x => if x.id == p2.id then p2 else x) = orgs := by
  induction orgs with
  | nil => rfl
  | cons a t ih =>
    rw [List.map_cons]
    rw [ih (fun x hx => hfresh x (List.mem_cons_of_mem _ hx))]
    have ha : (a.id == p2.id) = false :=
      beq_eq_false_iff_ne.mpr (hfresh a (List.mem_cons_self _ _))
    show (if a.id == p2.id then p2 else a) :: t = a :: t
    rw [ha]
    rfl

theorem replaceOrg_append_fresh (orgs : List Org) (ph p2 : Org)
    (hid : p2.id = ph.id) (hfresh : ∀ x ∈ orgs, x.id ≠ ph.id) :
    replaceOrg (orgs ++ [ph]) p2 = orgs ++ [p2] := by
  unfold replaceOrg
  rw [List.map_append]
  rw [map_replace_fresh orgs p2 (fun x hx h => hfresh x hx (h.trans hid))]
  congr 1
  show [if ph.id == p2.id then p2 else ph] = [p2]
  rw [if_pos (beq_iff_eq.mpr hid.symm)]

theorem findOrg_append_fresh (orgs : List Org) (p : Org)
    (hfresh : ∀ x ∈ orgs, x.id ≠ p.id) :
    findOrg (orgs ++ [p]) p.id = some p := by
  induction orgs with
  | nil =>
    show List.find? _ [p] = some p
    rw [List.find?_cons]
    simp only [beq_self_eq_true]
  | cons a t ih =>
    show List.find? _ (a :: (t ++ [p])) = some p
    rw [List.find?_cons]
    have ha : (a.id == p.id) = false :=
      beq_eq_false_iff_ne.mpr (hfresh a (List.mem_cons_self _ _))
    simp only [ha]
    exact ih (fun x hx => hfresh x (List.mem_cons_of_mem _ hx))

theorem createUnknown_ok (db : DB) (rl cl : OrgLevel) (s : List Char)
    (hWF : C7WF db rl cl)
    (hmiss : (db.d2o.filter fun e => e.directory_string == s).head? = none) :
    ∃ dbf p uroot k,
      create_unknown_object_for_dir_string db s = Except.ok (dbf, p) ∧
      C7WF dbf rl cl ∧ DBExt db dbf ∧
      dbf.d2o = db.d2o ++ [{ organization := p.id, directory_string := s }] ∧
      p ∈ dbf.orgs ∧
      p.code = chars "Unknown_" ++ natToStr k ∧
      p.parent = some uroot.id ∧
      uroot ∈ dbf.orgs ∧ uroot.code = chars "Unknown" ∧
      uroot.organization_level = some rl.id ∧
      d2oLookup dbf s = some p := by
  obtain ⟨db1, uroot, hcall1, hWF1, hext1, hd1, hl1, humem, hucode, hulvl,
    hucache⟩ := get_or_create_unknown_root_ok db rl cl hWF
  obtain ⟨hroots1, hchild1, hlev1, hfrl1, hfcl1, hids1, hlt1, hguard1,
    hparentless1, hres1, hcache1⟩ := hWF1
  have hclmem : cl ∈ childrenOf db1.levels rl := by
    rw [hchild1]
    exact List.mem_cons_self cl []
  have hclparent : cl.parent = some rl.id := (childrenOf_mem hclmem).2
  have hfuroot : findOrg db1.orgs uroot.id = some uroot :=
    findOrg_eq_of_mem hids1 humem
  have horg : child_organization_level db1.levels rl = some cl := by
    unfold child_organization_level
    rw [hchild1]
    rfl
  obtain ⟨_, hpc_notin, _, _⟩ := findUniqueName_spec (chars "Unknown_placeholder")
    ((orgChildren db1.orgs (some uroot.id)).map (·.code))
  obtain ⟨_, hps_notin, _, _⟩ := findUniqueName_spec (chars "Unknown: " ++ s)
    ((orgChildren db1.orgs (some uroot.id)).map (·.shortname))
  obtain ⟨_, hpl_notin, _, _⟩ := findUniqueName_spec (chars "Unknown: " ++ s)
    ((orgChildren db1.orgs (some uroot.id)).map (·.longname))
  have hsave : ∃ db2 ph,
      orgSaveNew db1 (some uroot.id) (some cl.id)
        (findUniqueName (chars "Unknown_placeholder")
          ((orgChildren db1.orgs (some uroot.id)).map (·.code)))
        (findUniqueName (chars "Unknown: " ++ s)
          ((orgChildren db1.orgs (some uroot.id)).map (·.shortname)))
        (findUniqueName (chars "Unknown: " ++ s)
          ((orgChildren db1.orgs (some uroot.id)).map (·.longname)))
        = Except.ok (db2, ph) ∧
      db2.orgs = db1.orgs ++ [ph] ∧ db2.d2o = db1.d2o ∧
      db2.levels = db1.levels ∧ db2.nextOrgId = db1.nextOrgId + 1 ∧
      db2.cachedUnknown = db1.cachedUnknown ∧
      ph.id = db1.nextOrgId ∧ ph.parent = some uroot.id ∧
      ph.organization_level = some cl.id ∧
      ph.shortname = findUniqueName (chars "Unknown: " ++ s)
        ((orgChildren db1.orgs (some uroot.id)).map (·.shortname)) ∧
      ph.longname = findUniqueName (chars "Unknown: " ++ s)
        ((orgChildren db1.orgs (some uroot.id)).map (·.longname)) := by
    unfold orgSaveNew orgFullClean
    rw [orgCleanFields_ok _ (by simp [mkOrg]) ?hcode ?hne ?hsn ?hln]
    case hcode =>
      simp only [mkOrg]
      exact findUniqueName_no_hyphen _ _ (by decide)
    case hne =>
      simp only [mkOrg]
      exact findUniqueName_ne_nil _ _ (by decide)
    case hsn =>
      simp only [mkOrg]
      refine findUniqueName_ne_nil _ _ ?_
      intro hcon
      exact absurd (List.append_eq_nil.mp hcon).1 (by decide)
    case hln =>
      simp only [mkOrg]
      refine findUniqueName_ne_nil _ _ ?_
      intro hcon
      exact absurd (List.append_eq_nil.mp hcon).1 (by decide)
    rw [organizationClean_ok_child db1.levels db1.orgs db1.orgDisable _ rl cl
      uroot rfl hfcl1 hclparent hfrl1 rfl hfuroot hulvl hlev1]
    rw [orgValidateUnique_of_avoid _ _
      (avoid_of_not_mem_children hpc_notin)
      (avoid_of_not_mem_children hps_notin)
      (avoid_of_not_mem_children hpl_notin)]
    exact ⟨_, _, rfl, rfl, rfl, rfl, rfl, rfl, rfl, rfl, rfl, rfl, rfl⟩
  obtain ⟨db2, ph, hsv1, ho2, hd2, hl2, hn2, hc2, hphid, hphpar, hphlvl,
    hphsn, hphln⟩ := hsave
  have hfuroot2 : findOrg db2.orgs uroot.id = some uroot := by
    rw [ho2]
    exact find?_append_some hfuroot [ph]
  have hfresh1 : ∀ x ∈ db1.orgs, x.id ≠ ph.id := by
    intro x hx hcon
    have := hlt1 x hx
    rw [hcon, hphid] at this
    omega
  have havoid_c : ∀ x ∈ db2.orgs, x.id ≠ ph.id →
      x.parent = ph.parent → x.code ≠ chars "Unknown_" ++ natToStr ph.id := by
    intro x hx hxid _ hcon
    rw [ho2] at hx
    rcases List.mem_append.mp hx with hx | hx
    · obtain ⟨k, hk, hkeq⟩ := hguard1 x hx (by
        rw [listStartsWith_iff (chars "Unknown_") x.code]
        exact ⟨natToStr ph.id, hcon⟩)
      rw [hkeq] at hcon
      have hkid : k = ph.id := natToStr_inj (List.append_cancel_left hcon)
      rw [hkid, hphid] at hk
      omega
    · rw [List.mem_singleton] at hx
      rw [hx] at hxid
      exact hxid rfl
  have havoid_s : ∀ x ∈ db2.orgs, x.id ≠ ph.id →
      x.parent = ph.parent → x.shortname ≠ ph.shortname := by
    intro x hx hxid hxpar hcon
    rw [ho2] at hx
    rcases List.mem_append.mp hx with hx | hx
    · exact hps_notin (List.mem_map.mpr
        ⟨x, mem_orgChildren hx (hxpar.trans hphpar), hcon.trans hphsn⟩)
    · rw [List.mem_singleton] at hx
      rw [hx] at hxid
      exact hxid rfl
  have havoid_l : ∀ x ∈ db2.orgs, x.id ≠ ph.id →
      x.parent = ph.parent → x.longname ≠ ph.longname := by
    intro x hx hxid hxpar hcon
    rw [ho2] at hx
    rcases List.mem_append.mp hx with hx | hx
    · exact hpl_notin (List.mem_map.mpr
        ⟨x, mem_orgChildren hx (hxpar.trans hphpar), hcon.trans hphln⟩)
    · rw [List.mem_singleton] at hx
      rw [hx] at hxid
      exact hxid rfl
  have hsave2 : ∃ db3,
      orgSaveExisting db2 { ph with code := chars "Unknown_" ++ natToStr ph.id }
        = Except.ok db3 ∧
      db3.orgs = db1.orgs ++
        [{ ph with code := chars "Unknown_" ++ natToStr ph.id }] ∧
      db3.d2o = db2.d2o ∧ db3.levels = db2.levels ∧
      db3.nextOrgId = db2.nextOrgId ∧ db3.cachedUnknown = db2.cachedUnknown := by
    unfold orgSaveExisting orgFullClean
    rw [orgCleanFields_ok _ (by simp [hphlvl]) ?hcode2 ?hne2 ?hsn2 ?hln2]
    case hcode2 =>
      show ∀ c ∈ chars "Unknown_" ++ natToStr ph.id, c ≠ '-'
      have hpre : ∀ c ∈ chars "Unknown_", c ≠ '-' := by decide
      intro c hc
      rcases List.mem_append.mp hc with h | h
      · exact hpre c h
      · exact natToStr_no_hyphen _ c h
    case hne2 =>
      show chars "Unknown_" ++ natToStr ph.id ≠ []
      intro hcon
      exact absurd (List.append_eq_nil.mp hcon).1 (by decide)
    case hsn2 =>
      show ph.shortname ≠ []
      rw [hphsn]
      refine findUniqueName_ne_nil _ _ ?_
      intro hcon
      exact absurd (List.append_eq_nil.mp hcon).1 (by decide)
    case hln2 =>
      show ph.longname ≠ []
      rw [hphln]
      refine findUniqueName_ne_nil _ _ ?_
      intro hcon
      exact absurd (List.append_eq_nil.mp hcon).1 (by decide)
    rw [organizationClean_ok_child db2.levels db2.orgs db2.orgDisable
      { ph with code := chars "Unknown_" ++ natToStr ph.id } rl cl
      uroot hphlvl (by rw [hl2]; exact hfcl1) hclparent
      (by rw [hl2]; exact hfrl1) hphpar hfuroot2 hulvl hlev1]
    rw [orgValidateUnique_of_avoid db2.orgs
      { ph with code := chars "Unknown_" ++ natToStr ph.id }
      havoid_c havoid_s havoid_l]
    refine ⟨_, rfl, ?_, rfl, rfl, rfl, rfl⟩
    show replaceOrg db2.orgs { ph with code := chars "Unknown_" ++ natToStr ph.id }
      = db1.orgs ++ [{ ph with code := chars "Unknown_" ++ natToStr ph.id }]
    rw [ho2]
    exact replaceOrg_append_fresh db1.orgs ph _ rfl hfresh1
  obtain ⟨db3, hsv2, ho3, hd3, hl3, hn3, hc3⟩ := hsave2
  have hfilt : db.d2o.filter (fun e => e.directory_string == s) = [] := by
    cases hf : db.d2o.filter fun e => e.directory_string == s with
    | nil => rfl
    | cons a t =>
      rw [hf] at hmiss
      cases hmiss
  have hany : (db3.d2o.any fun e => e.directory_string == s) = false := by
    rw [hd3, hd2, hd1]
    rw [List.any_eq_false]
    intro e he
    rw [List.filter_eq_nil] at hfilt
    exact hfilt e he
  unfold create_unknown_object_for_dir_string
  simp only [hcall1, hulvl, hfrl1, horg, Option.map_some',
    generate_unique_organization_names]
  rw [hsv1]
  simp only [hsv2]
  rw [hany, if_neg (show ¬ (false = true) by decide)]
  refine ⟨_, { ph with code := chars "Unknown_" ++ natToStr ph.id }, uroot,
    ph.id, rfl, ?_, ?_, ?_, ?_, rfl, hphpar, ?_, hucode, hulvl, ?_⟩
  · refine ⟨?_, ?_, hlev1, ?_, ?_, ?_, ?_, ?_, ?_, ?_, ?_⟩
    · show rootsOf db3.levels = [rl]
      rw [hl3, hl2]
      exact hroots1
    · show childrenOf db3.levels rl = [cl]
      rw [hl3, hl2]
      exact hchild1
    · show findLevel db3.levels rl.id = some rl
      rw [hl3, hl2]
      exact hfrl1
    · show findLevel db3.levels cl.id = some cl
      rw [hl3, hl2]
      exact hfcl1
    · show (db3.orgs.map (·.id)).Nodup
      rw [ho3, List.map_append]
      refine nodup_append_one hids1 ?_
      intro hmem
      rw [List.mem_map] at hmem
      obtain ⟨x, hx, hxid⟩ := hmem
      have hxlt := hlt1 x hx
      have hxeq : x.id = ph.id := hxid
      rw [hphid] at hxeq
      omega
    · intro o ho
      replace ho : o ∈ db3.orgs := ho
      rw [ho3] at ho
      show o.id < db3.nextOrgId
      have hn : db3.nextOrgId = db1.nextOrgId + 1 := by rw [hn3, hn2]
      rcases List.mem_append.mp ho with ho | ho
      · have := hlt1 o ho
        omega
      · rw [List.mem_singleton] at ho
        rw [ho]
        show ph.id < db3.nextOrgId
        omega
    · intro o ho hpre
      replace ho : o ∈ db3.orgs := ho
      rw [ho3] at ho
      have hn : db3.nextOrgId = db1.nextOrgId + 1 := by rw [hn3, hn2]
      rcases List.mem_append.mp ho with ho | ho
      · obtain ⟨k, hk, hkeq⟩ := hguard1 o ho hpre
        refine ⟨k, ?_, hkeq⟩
        show k < db3.nextOrgId
        omega
      · rw [List.mem_singleton] at ho
        refine ⟨ph.id, ?_, by rw [ho]⟩
        show ph.id < db3.nextOrgId
        omega
    · intro o ho hpar
      replace ho : o ∈ db3.orgs := ho
      rw [ho3] at ho
      rcases List.mem_append.mp ho with ho | ho
      · exact hparentless1 o ho hpar
      · rw [List.mem_singleton] at ho
        rw [ho] at hpar
        replace hpar : ph.parent = none := hpar
        rw [hphpar] at hpar
        cases hpar
    · intro e he
      replace he : e ∈ db3.d2o ++
        [{ organization := ph.id, directory_string := s }] := he
      rw [hd3, hd2] at he
      rcases List.mem_append.mp he with he | he
      · obtain ⟨o, ho, hid⟩ := hres1 e he
        refine ⟨o, ?_, hid⟩
        show o ∈ db3.orgs
        rw [ho3]
        exact List.mem_append.mpr (Or.inl ho)
      · rw [List.mem_singleton] at he
        refine ⟨{ ph with code := chars "Unknown_" ++ natToStr ph.id }, ?_, ?_⟩
        · show _ ∈ db3.orgs
          rw [ho3]
          exact List.mem_append.mpr (Or.inr (List.mem_singleton.mpr rfl))
        · rw [he]
    · have hcdb : db3.cachedUnknown = some uroot := by rw [hc3, hc2, hucache]
      show (match db3.cachedUnknown with
        | none => True
        | some o => o ∈ db3.orgs ∧ o.code = chars "Unknown" ∧
            o.organization_level = some rl.id)
      rw [hcdb]
      refine ⟨?_, hucode, hulvl⟩
      rw [ho3]
      exact List.mem_append.mpr (Or.inl humem)
  · refine DBExt_trans hext1 ⟨?_, ⟨[{ ph with
        code := chars "Unknown_" ++ natToStr ph.id }], ?_, ?_⟩,
      ⟨[{ organization := ph.id, directory_string := s }], ?_⟩, ?_⟩
    · show db3.levels = db1.levels
      rw [hl3, hl2]
    · show db3.orgs = db1.orgs ++ _
      exact ho3
    · intro x hx
      rw [List.mem_singleton] at hx
      rw [hx]
      show db1.nextOrgId ≤ ph.id
      omega
    · show db3.d2o ++ _ = db1.d2o ++ _
      rw [hd3, hd2]
    · show db1.nextOrgId ≤ db3.nextOrgId
      have hn : db3.nextOrgId = db1.nextOrgId + 1 := by rw [hn3, hn2]
      omega
  · show db3.d2o ++ _ = db.d2o ++ _
    rw [hd3, hd2, hd1]
  · show _ ∈ db3.orgs
    rw [ho3]
    exact List.mem_append.mpr (Or.inr (List.mem_singleton.mpr rfl))
  · show uroot ∈ db3.orgs
    rw [ho3]
    exact List.mem_append.mpr (Or.inl humem)
  · show (match ((db3.d2o ++ [({ organization := ph.id, directory_string := s } : Dir2Org)]).filter
        fun e => e.directory_string == s).head? with
      | none => none
      | some e => findOrg db3.orgs e.organization)
      = some { ph with code := chars "Unknown_" ++ natToStr ph.id }
    have hfl : (db3.d2o ++ [({ organization := ph.id, directory_string := s } : Dir2Org)]).filter
        (fun e => e.directory_string == s)
        = [({ organization := ph.id, directory_string := s } : Dir2Org)] := by
      rw [List.filter_append, hd3, hd2, hd1, hfilt]
      rw [List.nil_append]
      simp
    rw [hfl]
    show findOrg db3.orgs ph.id = some _
    rw [ho3]
    exact findOrg_append_fresh db1.orgs _ hfresh1

theorem convertLoop_ok (createUndefined : Bool) (rl cl : OrgLevel)
    (strings : List (List Char)) :
    ∀ (db : DB) (tmporgs : List Org), C7WF db rl cl → tmporgs.Nodup →
    ∃ dbf orgs,
      convertLoop createUndefined db strings tmporgs = Except.ok (dbf, orgs) ∧
      orgs.Nodup ∧ C7WF dbf rl cl ∧ DBExt db dbf ∧
      (∀ o ∈ tmporgs, o ∈ orgs) ∧
      (∀ o ∈ orgs, o ∈ tmporgs ∨ ∃ t ∈ strings, d2oLookup dbf t = some o) ∧
      (∀ t ∈ strings, ∀ o, d2oLookup db t = some o → o ∈ orgs) ∧
      (createUndefined = false → dbf = db) ∧
      (createUndefined = true → ∀ t ∈ strings, d2oLookup db t = none →
        ∃ p k uroot, p ∈ orgs ∧ d2oLookup dbf t = some p ∧
          p.code = chars "Unknown_" ++ natToStr k ∧
          uroot ∈ dbf.orgs ∧ uroot.code = chars "Unknown" ∧
          uroot.organization_level = some rl.id ∧
          p.parent = some uroot.id) := by
  induction strings with
  | nil =>
    intro db tmporgs hWF hnd
    refine ⟨db, tmporgs, rfl, hnd, hWF, DBExt_refl db, fun o ho => ho,
      fun o ho => Or.inl ho, fun t ht => absurd ht (List.not_mem_nil t),
      fun _ => rfl, fun _ t ht => absurd ht (List.not_mem_nil t)⟩
  | cons s rest ih =>
    intro db tmporgs hWF hnd
    have hids := C7WF_ids hWF
    have hres := C7WF_res hWF
    cases hq : (db.d2o.filter fun e => e.directory_string == s).head? with
    | some entry =>
      have hentry_mem : entry ∈ db.d2o := by
        have hm : entry ∈ db.d2o.filter fun e => e.directory_string == s := by
          cases hf : db.d2o.filter fun e => e.directory_string == s with
          | nil =>
            rw [hf] at hq
            cases hq
          | cons a t =>
            rw [hf] at hq
            cases hq
            exact List.mem_cons_self _ _
        exact (List.mem_filter.mp hm).1
      obtain ⟨x, hx, hxid⟩ := hres entry hentry_mem
      have hfind : findOrg db.orgs entry.organization = some x := by
        rw [← hxid]
        exact findOrg_eq_of_mem hids hx
      have hlook_s : d2oLookup db s = some x := by
        unfold d2oLookup
        rw [hq]
        exact hfind
      simp only [convertLoop, hq, hfind]
      by_cases hxin : x ∈ tmporgs
      · rw [if_pos hxin]
        obtain ⟨dbf, orgs, hrec, hnd2, hWF2, hext, hsub, horig, hcompl,
          hfalse, htrue⟩ := ih db tmporgs hWF hnd
        refine ⟨dbf, orgs, hrec, hnd2, hWF2, hext, hsub, ?_, ?_, hfalse, ?_⟩
        · intro o ho
          rcases horig o ho with h | ⟨t, ht, hl⟩
          · exact Or.inl h
          · exact Or.inr ⟨t, List.mem_cons_of_mem _ ht, hl⟩
        · intro t ht o h
          rcases List.mem_cons.mp ht with ht | ht
          · rw [ht, hlook_s] at h
            have hxo := Option.some.inj h
            rw [← hxo]
            exact hsub x hxin
          · exact hcompl t ht o h
        · intro hct t ht hnone
          rcases List.mem_cons.mp ht with ht | ht
          · rw [ht, hlook_s] at hnone
            cases hnone
          · exact htrue hct t ht hnone
      · rw [if_neg hxin]
        obtain ⟨dbf, orgs, hrec, hnd2, hWF2, hext, hsub, horig, hcompl,
          hfalse, htrue⟩ := ih db (tmporgs ++ [x]) hWF (nodup_append_one hnd hxin)
        refine ⟨dbf, orgs, hrec, hnd2, hWF2, hext, ?_, ?_, ?_, hfalse, ?_⟩
        · intro o ho
          exact hsub o (List.mem_append.mpr (Or.inl ho))
        · intro o ho
          rcases horig o ho with h | ⟨t, ht, hl⟩
          · rcases List.mem_append.mp h with h | h
            · exact Or.inl h
            · rw [List.mem_singleton] at h
              refine Or.inr ⟨s, List.mem_cons_self _ _, ?_⟩
              rw [h]
              exact d2oLookup_mono hres hext hlook_s
          · exact Or.inr ⟨t, List.mem_cons_of_mem _ ht, hl⟩
        · intro t ht o h
          rcases List.mem_cons.mp ht with ht | ht
          · rw [ht, hlook_s] at h
            have hxo := Option.some.inj h
            rw [← hxo]
            exact hsub x (List.mem_append.mpr (Or.inr (List.mem_singleton.mpr rfl)))
          · exact hcompl t ht o h
        · intro hct t ht hnone
          rcases List.mem_cons.mp ht with ht | ht
          · rw [ht, hlook_s] at hnone
            cases hnone
          · exact htrue hct t ht hnone
    | none =>
      have hnone_s : d2oLookup db s = none := by
        unfold d2oLookup
        rw [hq]
      cases hcr : createUndefined with
      | false =>
        rw [hcr] at ih
        simp only [convertLoop, hq]
        rw [if_neg (show ¬ (false = true) by decide)]
        obtain ⟨dbf, orgs, hrec, hnd2, hWF2, hext, hsub, horig, hcompl,
          hfalse, htrue⟩ := ih db tmporgs hWF hnd
        refine ⟨dbf, orgs, hrec, hnd2, hWF2, hext, hsub, ?_, ?_,
          fun _ => hfalse rfl, ?_⟩
        · intro o ho
          rcases horig o ho with h | ⟨t, ht, hl⟩
          · exact Or.inl h
          · exact Or.inr ⟨t, List.mem_cons_of_mem _ ht, hl⟩
        · intro t ht o h
          rcases List.mem_cons.mp ht with ht | ht
          · rw [ht, hnone_s] at h
            cases h
          · exact hcompl t ht o h
        · intro hct
          exact absurd hct (by decide)
      | true =>
        rw [hcr] at ih
        simp only [convertLoop, hq]
        rw [if_pos True.intro]
        obtain ⟨db2, p, uroot, k, hcall, hWF2, hext2, hd2oeq, hpmem, hpcode,
          hppar, humem, hucode, hulvl, hlook⟩ := createUnknown_ok db rl cl s hWF hq
        have hres2 := C7WF_res hWF2
        simp only [hcall]
        by_cases hpin : p ∈ tmporgs
        · rw [if_pos hpin]
          obtain ⟨dbf, orgs, hrec, hnd2, hWF3, hext, hsub, horig, hcompl,
            hfalse, htrue⟩ := ih db2 tmporgs hWF2 hnd
          refine ⟨dbf, orgs, hrec, hnd2, hWF3, DBExt_trans hext2 hext,
            hsub, ?_, ?_, ?_, ?_⟩
          · intro o ho
            rcases horig o ho with h | ⟨t, ht, hl⟩
            · exact Or.inl h
            · exact Or.inr ⟨t, List.mem_cons_of_mem _ ht, hl⟩
          · intro t ht o h
            rcases List.mem_cons.mp ht with ht | ht
            · rw [ht, hnone_s] at h
              cases h
            · exact hcompl t ht o (d2oLookup_mono hres hext2 h)
          · intro hct
            exact absurd hct (by decide)
          · intro _ t ht hnone
            by_cases hts : t = s
            · refine ⟨p, k, uroot, hsub p hpin, ?_, hpcode, ?_, hucode,
                hulvl, hppar⟩
              · rw [hts]
                exact d2oLookup_mono hres2 hext hlook
              · obtain ⟨_, ⟨new, hofs, _⟩, _, _⟩ := hext
                rw [hofs]
                exact List.mem_append.mpr (Or.inl humem)
            · have htr : t ∈ rest := (List.mem_cons.mp ht).resolve_left hts
              have hnone2 : d2oLookup db2 t = none := by
                rw [d2oLookup_none_iff hres2]
                rw [hd2oeq, List.filter_append]
                rw [(d2oLookup_none_iff hres).mp hnone]
                rw [List.nil_append]
                rw [List.filter_eq_nil]
                intro e he
                rw [List.mem_singleton] at he
                rw [he]
                simp only [beq_iff_eq]
                exact fun hcon => hts hcon.symm
              exact htrue rfl t htr hnone2
        · rw [if_neg hpin]
          obtain ⟨dbf, orgs, hrec, hnd2, hWF3, hext, hsub, horig, hcompl,
            hfalse, htrue⟩ := ih db2 (tmporgs ++ [p]) hWF2 (nodup_append_one hnd hpin)
          refine ⟨dbf, orgs, hrec, hnd2, hWF3, DBExt_trans hext2 hext,
            ?_, ?_, ?_, ?_, ?_⟩
          · intro o ho
            exact hsub o (List.mem_append.mpr (Or.inl ho))
          · intro o ho
            rcases horig o ho with h | ⟨t, ht, hl⟩
            · rcases List.mem_append.mp h with h | h
              · exact Or.inl h
              · rw [List.mem_singleton] at h
                refine Or.inr ⟨s, List.mem_cons_self _ _, ?_⟩
                rw [h]
                exact d2oLookup_mono hres2 hext hlook
            · exact Or.inr ⟨t, List.mem_cons_of_mem _ ht, hl⟩
          · intro t ht o h
            rcases List.mem_cons.mp ht with ht | ht
            · rw [ht, hnone_s] at h
              cases h
            · exact hcompl t ht o (d2oLookup_mono hres hext2 h)
          · intro hct
            exact absurd hct (by decide)
          · intro _ t ht hnone
            by_cases hts : t = s
            · refine ⟨p, k, uroot,
                hsub p (List.mem_append.mpr (Or.inr (List.mem_singleton.mpr rfl))),
                ?_, hpcode, ?_, hucode, hulvl, hppar⟩
              · rw [hts]
                exact d2oLookup_mono hres2 hext hlook
              · obtain ⟨_, ⟨new, hofs, _⟩, _, _⟩ := hext
                rw [hofs]
                exact List.mem_append.mpr (Or.inl humem)
            · have htr : t ∈ rest := (List.mem_cons.mp ht).resolve_left hts
              have hnone2 : d2oLookup db2 t = none := by
                rw [d2oLookup_none_iff hres2]
                rw [hd2oeq, List.filter_append]
                rw [(d2oLookup_none_iff hres).mp hnone]
                rw [List.nil_append]
                rw [List.filter_eq_nil]
                intro e he
                rw [List.mem_singleton] at he
                rw [he]
                simp only [beq_iff_eq]
                exact fun hcon => hts hcon.symm
              exact htrue rfl t htr hnone2

/-- The root OrganizationLevel of `sampleLevels`. -/
def sampleRL : OrgLevel :=
  { id := 1, name := chars "University", level := 40, parent := none,
    export_to_xdmod := true }

/-- The child OrganizationLevel of `sampleLevels`. -/
def sampleCL : OrgLevel :=
  { id := 2, name := chars "Department", level := 20, parent := some 1,
    export_to_xdmod := true }

/-- Sample database state for the directory-string conversion: the two
sample levels, the two sample organizations, and one directory mapping
onto the child organization. -/
def sampleDB : DB :=
  { levels := sampleLevels, orgs := sampleOrgs,
    d2o := [{ organization := 2, directory_string := chars "cs-dept" }],
    nextLevelId := 3, nextOrgId := 3, cachedUnknown := none,
    olDisable := false, orgDisable := false }

/-- C7: on a well-formed database, `convert_strings_to_orgs` succeeds and
returns a duplicate-free list of Organizations, each of which is what
Directory2Organization maps one of the given strings to in the resulting
database; the Organization mapped by any of the strings is in the list.
With createUndefined False an unmapped string is ignored and the
database is untouched; with createUndefined True every unmapped string
gets a placeholder Organization named Unknown_<number> whose parent is
the top-level Unknown organization (code Unknown, at the parentless root
OrganizationLevel), a Directory2Organization entry mapping the string to
the placeholder, and the placeholder is in the returned list. -/
theorem C7_convert_strings_to_orgs (db : DB) (rl cl : OrgLevel)
    (strings : List (List Char)) (createUndefined : Bool)
    (hWF : C7WF db rl cl) :
    ∃ dbf orgs,
      convert_strings_to_orgs db strings createUndefined
        = Except.ok (dbf, orgs) ∧
      orgs.Nodup ∧
      (∀ o ∈ orgs, ∃ t ∈ strings, d2oLookup dbf t = some o) ∧
      (∀ t ∈ strings, ∀ o, d2oLookup db t = some o → o ∈ orgs) ∧
      (createUndefined = false → dbf = db) ∧
      (createUndefined = true → ∀ t ∈ strings, d2oLookup db t = none →
        ∃ p k uroot, p ∈ orgs ∧ d2oLookup dbf t = some p ∧
          p.code = chars "Unknown_" ++ natToStr k ∧
          uroot ∈ dbf.orgs ∧ uroot.code = chars "Unknown" ∧
          uroot.organization_level = some rl.id ∧ rl.parent = none ∧
          p.parent = some uroot.id) := by
  obtain ⟨dbf, orgs, hrec, hnd, hWF2, hext, _, horig, hcompl, hfalse, htrue⟩ :=
    convertLoop_ok createUndefined rl cl strings db [] hWF List.nodup_nil
  have hrlparent : rl.parent = none :=
    (rootsOf_mem (by rw [hWF.1]; exact List.mem_cons_self rl [])).2
  refine ⟨dbf, orgs, hrec, hnd, ?_, hcompl, hfalse, ?_⟩
  · intro o ho
    rcases horig o ho with h | h
    · exact absurd h (List.not_mem_nil o)
    · exact h
  · intro hct t ht hnone
    obtain ⟨p, k, uroot, h1, h2, h3, h4, h5, h6, h7⟩ := htrue hct t ht hnone
    exact ⟨p, k, uroot, h1, h2, h3, h4, h5, h6, hrlparent, h7⟩

/-- Witness for C7: the sample database satisfies the well-formedness
hypothesis, and the conversion of a mapped and an unmapped string with
createUndefined True has all the claimed properties. -/
theorem C7_convert_strings_to_orgs_witness :
    C7WF sampleDB sampleRL sampleCL ∧
    ∃ dbf orgs,
      convert_strings_to_orgs sampleDB [chars "cs-dept", chars "physics"] true
        = Except.ok (dbf, orgs) ∧
      orgs.Nodup ∧
      (∀ o ∈ orgs, ∃ t ∈ [chars "cs-dept", chars "physics"],
        d2oLookup dbf t = some o) ∧
      (∀ t ∈ [chars "cs-dept", chars "physics"], ∀ o,
        d2oLookup sampleDB t = some o → o ∈ orgs) ∧
      (true = false → dbf = sampleDB) ∧
      (true = true → ∀ t ∈ [chars "cs-dept", chars "physics"],
        d2oLookup sampleDB t = none →
        ∃ p k uroot, p ∈ orgs ∧ d2oLookup dbf t = some p ∧
          p.code = chars "Unknown_" ++ natToStr k ∧
          uroot ∈ dbf.orgs ∧ uroot.code = chars "Unknown" ∧
          uroot.organization_level = some sampleRL.id ∧
          sampleRL.parent = none ∧
          p.parent = some uroot.id) := by
  have hWF : C7WF sampleDB sampleRL sampleCL := by
    refine ⟨by decide, by decide, by decide, by decide, by decide, by decide,
      by decide, ?_, by decide, by decide, True.intro⟩
    intro o ho hpre
    rcases List.mem_cons.mp ho with h | h
    · rw [h] at hpre
      exact absurd hpre (by decide)
    · rcases List.mem_cons.mp h with h | h
      · rw [h] at hpre
        exact absurd hpre (by decide)
      · exact absurd h (List.not_mem_nil o)
  exact ⟨hWF, C7_convert_strings_to_orgs sampleDB sampleRL sampleCL
    [chars "cs-dept", chars "physics"] true hWF⟩
